import Mathlib

/-!
# Chat application: real-time layer

A shallow embedding of the Socket.IO part of `src/server.js` (the authentication
middleware, the connection handler and the per-socket event handlers), of the message form
of `src/Chat.js` and of the `VoiceChannel` component of `src/VoiceChannel.js`, followed by
theorems about them, alone and run together.

The handlers of `server.js` are written against the Socket.IO server API. The part of
that library the handlers rely on is modelled here explicitly:

* the namespace keeps the live sockets; an event handler only runs for a live socket;
* the adapter keeps `rooms : Room → Set SocketId`; a socket joins the room named by
  its own id when it connects, and is removed from every room when it disconnects;
* `io.to(room).emit(...)` delivers to every live member of `room`;
* `socket.to(room).emit(...)` does the same, except for the members of the room named
  `socket.id`.

The database pool is a collaborator: its answers are a parameter (`Store`) and the
calls made to it are recorded in the effect list a handler returns.
-/

namespace ChatApp

/-! ## Data model -/

/-- Opaque negotiation payload (an offer, an answer or an ICE candidate). -/
abbrev Payload := String

/-- The server side of one connection: `socket.id` and the `socket.userId` attached by the
authentication middleware. -/
structure Socket where
  id : String
  userId : Nat
deriving DecidableEq, Repr

/-- Events the server emits to connections. -/
inductive Event where
  | new_message (id : Nat) (channel_id : String) (user_id : Nat) (username : String)
      (message : Option String) (created_at : Nat)
  | error (message : String)
  | user_typing (userId : Nat) (username : String)
  | user_joined_voice (userId : Nat) (socketId : String)
  | user_left_voice (userId : Nat) (socketId : String)
  | webrtc_offer (offer : Payload) (fromSocketId : String)
  | webrtc_answer (answer : Payload) (fromSocketId : String)
  | webrtc_ice_candidate (candidate : Payload) (fromSocketId : String)
deriving DecidableEq, Repr

/-- The payload of `send_message` when it can be destructured: its `channelId`, kept as the
string it is interpolated to in the room name, and its `message`, `none` when the field is
missing. -/
structure SendData where
  channelId : String
  message : Option String
deriving DecidableEq, Repr

/-- Events a client sends on its connection. `channelId` is kept as the string it is
interpolated to in the room name. The payload of `send_message` is `none` when the client
sends `null` or nothing. -/
inductive ClientEvent where
  | join_channel (channelId : String)
  | leave_channel (channelId : String)
  | send_message (data : Option SendData)
  | typing (channelId : String) (username : String)
  | join_voice (channelId : String)
  | leave_voice (channelId : String)
  | webrtc_offer (targetSocketId : String) (offer : Payload)
  | webrtc_answer (targetSocketId : String) (answer : Payload)
  | webrtc_ice_candidate (targetSocketId : String) (candidate : Payload)
  | disconnect
deriving DecidableEq, Repr

/-- What a handler does besides changing the server state: the two queries sent to the
database pool, and packets delivered to connections. -/
inductive Effect where
  | insertMessage (channelId : String) (userId : Nat) (body : String)
  | selectUsername (userId : Nat)
  | emit (target : String) (ev : Event)
deriving DecidableEq, Repr

/-- Answers of the database pool. `insert` is the `INSERT INTO messages` query: the
`insertId`, or `none` when the query rejects. `usernames` is the
`SELECT username FROM users WHERE id = ?` query: the usernames of the rows, or `none`
when the query rejects. -/
structure Store where
  insert : String → Nat → String → Option Nat
  usernames : Nat → Option (List String)

/-- Server state: the live sockets of the namespace, the adapter's rooms, and the
`onlineUsers` map (`userId -> socketId`, in insertion order). -/
structure Server where
  sockets : List Socket
  rooms : String → List String
  onlineUsers : List (Nat × String)

/-- The state of a freshly started server. -/
def Server.init : Server :=
  { sockets := [], rooms := fun _ => [], onlineUsers := [] }

/-! ## Socket.IO primitives -/

/-- `Set.prototype.add` on a set kept in insertion order. -/
def setAdd (xs : List String) (x : String) : List String :=
  if x ∈ xs then xs else xs ++ [x]

/-- `Set.prototype.delete`. -/
def setDelete (xs : List String) (x : String) : List String :=
  xs.filter (fun y => y ≠ x)

/-- `Map.prototype.set` on a map kept in insertion order. -/
def mapSet (m : List (Nat × String)) (k : Nat) (v : String) : List (Nat × String) :=
  match m with
  | [] => [(k, v)]
  | (k', v') :: rest => if k' = k then (k, v) :: rest else (k', v') :: mapSet rest k v

/-- `Map.prototype.delete`. -/
def mapDelete (m : List (Nat × String)) (k : Nat) : List (Nat × String) :=
  m.filter (fun e => e.1 ≠ k)

/-- `Map.prototype.get`. -/
def mapGet (m : List (Nat × String)) (k : Nat) : Option String :=
  (m.find? (fun e => e.1 = k)).map Prod.snd

/-- Is `id` the id of a live socket? -/
def Server.isLive (st : Server) (id : String) : Bool :=
  st.sockets.any (fun s => s.id = id)

/-- `socket.join(room)`. -/
def Server.join (st : Server) (id : String) (room : String) : Server :=
  { st with rooms := fun r => if r = room then setAdd (st.rooms r) id else st.rooms r }

/-- `socket.leave(room)`. -/
def Server.leave (st : Server) (id : String) (room : String) : Server :=
  { st with rooms := fun r => if r = room then setDelete (st.rooms r) id else st.rooms r }

/-- The adapter's `delAll(id)`: remove the socket from every room. -/
def Server.delAll (st : Server) (id : String) : Server :=
  { st with rooms := fun r => setDelete (st.rooms r) id }

/-- The adapter's broadcast to one room: every member of `room` that is not a member of
one of the `except` rooms and is a live socket gets the packet. -/
def Server.broadcast (st : Server) (room : String) (except : List String) (ev : Event) :
    List Effect :=
  ((st.rooms room).filter
      (fun id => decide (id ∉ except.flatMap st.rooms) && st.isLive id)).map
    (fun id => Effect.emit id ev)

/-- `io.to(room).emit(ev)`. -/
def Server.ioTo (st : Server) (room : String) (ev : Event) : List Effect :=
  st.broadcast room [] ev

/-- `socket.to(room).emit(ev)`: the room named `socket.id` is excepted. -/
def Server.socketTo (st : Server) (socket : Socket) (room : String) (ev : Event) :
    List Effect :=
  st.broadcast room [socket.id] ev

/-! ## `server.js`: authentication middleware and connection handler -/

/-- The `io.use` middleware. `token` is `socket.handshake.auth.token`; `verify` is
`jwt.verify` with the server's secret, giving `decoded.userId` or `none` on an error.
The result is the `userId` attached to the socket, or the message of the error passed to
`next`. -/
def authMiddleware (verify : String → Option Nat) (token : Option String) :
    Except String Nat :=
  match token with
  | none => .error "Authentication error"
  | some t =>
    if t = "" then .error "Authentication error"
    else
      match verify t with
      | none => .error "Authentication error"
      | some userId => .ok userId

/-- The body of `io.on('connection', ...)` up to the registration of the handlers, after
the library has added the socket to the namespace and to the room named by its id. -/
def onConnection (st : Server) (socket : Socket) : Server :=
  let st1 : Server := { st with sockets := st.sockets ++ [socket] }
  let st2 := st1.join socket.id socket.id
  { st2 with onlineUsers := mapSet st2.onlineUsers socket.userId socket.id }

/-- A connection attempt with connection id `id`: the middleware runs first; the
connection handler only runs when the middleware called `next()` without an error.
Returns the new state and, when the connection is refused, the error. -/
def handshake (verify : String → Option Nat) (st : Server) (id : String)
    (token : Option String) : Server × Option String :=
  match authMiddleware verify token with
  | .error e => (st, some e)
  | .ok userId => (onConnection st { id := id, userId := userId }, none)

/-! ## `server.js`: event handlers -/

/-- Name of the text room of a channel. -/
def channelRoom (channelId : String) : String := "channel_" ++ channelId

/-- Name of the voice room of a channel. -/
def voiceRoom (channelId : String) : String := "voice_" ++ channelId

/-- Handler of `join_channel`. -/
def join_channel (st : Server) (socket : Socket) (channelId : String) :
    Server × List Effect :=
  (st.join socket.id (channelRoom channelId), [])

/-- Handler of `leave_channel`. -/
def leave_channel (st : Server) (socket : Socket) (channelId : String) :
    Server × List Effect :=
  (st.leave socket.id (channelRoom channelId), [])

/-- The expression `message || 'en'`. -/
def bodyOrDefault (message : Option String) : String :=
  match message with
  | none => "en"
  | some m => if m = "" then "en" else m

/-- The packet sent from the `catch` block of `send_message`. -/
def sendFailed : Event := Event.error "Failed to send message"

/-- Handler of `send_message` for a payload with the fields `channelId` and `message`: the
`try` block from the first query on, and its `catch`. `now` is the value of `new Date()`. -/
def send_message (db : Store) (now : Nat) (st : Server) (socket : Socket)
    (channelId : String) (message : Option String) : Server × List Effect :=
  let q1 := Effect.insertMessage channelId socket.userId (bodyOrDefault message)
  match db.insert channelId socket.userId (bodyOrDefault message) with
  | none => (st, [q1, Effect.emit socket.id sendFailed])
  | some insertId =>
    let q2 := Effect.selectUsername socket.userId
    match db.usernames socket.userId with
    | none => (st, [q1, q2, Effect.emit socket.id sendFailed])
    | some [] => (st, [q1, q2, Effect.emit socket.id sendFailed])
    | some (username :: _) =>
      (st, [q1, q2] ++ st.ioTo (channelRoom channelId)
        (Event.new_message insertId channelId socket.userId username message now))

/-- Handler of `send_message` for any payload. The payload is destructured inside the
`try`: for `null` or `undefined` that throws, so the `catch` block sends its packet and no
query is sent. -/
def on_send_message (db : Store) (now : Nat) (st : Server) (socket : Socket)
    (data : Option SendData) : Server × List Effect :=
  match data with
  | none => (st, [Effect.emit socket.id sendFailed])
  | some d => send_message db now st socket d.channelId d.message

/-- Handler of `typing`. -/
def typing (st : Server) (socket : Socket) (channelId : String) (username : String) :
    Server × List Effect :=
  (st, st.socketTo socket (channelRoom channelId) (Event.user_typing socket.userId username))

/-- Handler of `join_voice`. -/
def join_voice (st : Server) (socket : Socket) (channelId : String) :
    Server × List Effect :=
  let st1 := st.join socket.id (voiceRoom channelId)
  (st1, st1.socketTo socket (voiceRoom channelId)
    (Event.user_joined_voice socket.userId socket.id))

/-- Handler of `leave_voice`. -/
def leave_voice (st : Server) (socket : Socket) (channelId : String) :
    Server × List Effect :=
  (st.leave socket.id (voiceRoom channelId),
    st.socketTo socket (voiceRoom channelId) (Event.user_left_voice socket.userId socket.id))

/-- Handler of `webrtc_offer`. -/
def webrtc_offer (st : Server) (socket : Socket) (targetSocketId : String)
    (offer : Payload) : Server × List Effect :=
  (st, st.ioTo targetSocketId (Event.webrtc_offer offer socket.id))

/-- Handler of `webrtc_answer`. -/
def webrtc_answer (st : Server) (socket : Socket) (targetSocketId : String)
    (answer : Payload) : Server × List Effect :=
  (st, st.ioTo targetSocketId (Event.webrtc_answer answer socket.id))

/-- Handler of `webrtc_ice_candidate`. -/
def webrtc_ice_candidate (st : Server) (socket : Socket) (targetSocketId : String)
    (candidate : Payload) : Server × List Effect :=
  (st, st.ioTo targetSocketId (Event.webrtc_ice_candidate candidate socket.id))

/-- A socket closes: the library removes it from every room and from the namespace, then
the `disconnect` handler of `server.js` runs. -/
def disconnect (st : Server) (socket : Socket) : Server × List Effect :=
  let st1 := st.delAll socket.id
  let st2 : Server := { st1 with sockets := st1.sockets.filter (fun s => s.id ≠ socket.id) }
  ({ st2 with onlineUsers := mapDelete st2.onlineUsers socket.userId }, [])

/-- The handler registered on `socket` for a client event. -/
def handle (db : Store) (now : Nat) (st : Server) (socket : Socket) :
    ClientEvent → Server × List Effect
  | .join_channel c => join_channel st socket c
  | .leave_channel c => leave_channel st socket c
  | .send_message data => on_send_message db now st socket data
  | .typing c u => typing st socket c u
  | .join_voice c => join_voice st socket c
  | .leave_voice c => leave_voice st socket c
  | .webrtc_offer t p => webrtc_offer st socket t p
  | .webrtc_answer t p => webrtc_answer st socket t p
  | .webrtc_ice_candidate t p => webrtc_ice_candidate st socket t p
  | .disconnect => disconnect st socket

/-- An event arrives for connection id `id`: its handler runs when (and only when) the
connection handler registered one, that is when `id` is a live socket. -/
def dispatch (db : Store) (now : Nat) (st : Server) (id : String) (ev : ClientEvent) :
    Server × List Effect :=
  match st.sockets.find? (fun s => s.id = id) with
  | none => (st, [])
  | some socket => handle db now st socket ev

/-- A sequence of events, each with the id of the connection it arrives on. -/
def run (db : Store) (now : Nat) (st : Server) :
    List (String × ClientEvent) → Server × List Effect
  | [] => (st, [])
  | (id, ev) :: rest =>
    let r := dispatch db now st id ev
    let r' := run db now r.1 rest
    (r'.1, r.2 ++ r'.2)

/-- The packets among the effects, as `(connection id, event)`. -/
def emits : List Effect → List (String × Event)
  | [] => []
  | Effect.emit target ev :: rest => (target, ev) :: emits rest
  | _ :: rest => emits rest

/-- The connections a list of effects delivers `ev` to. -/
def recipients (effs : List Effect) (ev : Event) : List String :=
  ((emits effs).filter (fun p => p.2 = ev)).map Prod.fst

/-- The well-formedness the library maintains: connection ids are unique, rooms are
sets, only live sockets are members of rooms, and the room named by a socket id has
that socket as its only member. -/
structure Server.WF (st : Server) : Prop where
  sockets_nodup : (st.sockets.map Socket.id).Nodup
  rooms_nodup : ∀ r, (st.rooms r).Nodup
  rooms_live : ∀ r id, id ∈ st.rooms r → st.isLive id = true
  own_room : ∀ s ∈ st.sockets, st.rooms s.id = [s.id]

/-! ## `Chat.js`: the message form -/

/-- The code points `String.prototype.trim` strips: ECMAScript `WhiteSpace` and
`LineTerminator`. -/
def isJsWhiteSpace (c : Char) : Bool :=
  let n := c.toNat
  n = 0x9 || n = 0xA || n = 0xB || n = 0xC || n = 0xD || n = 0x20 || n = 0xA0 ||
    n = 0x1680 || (0x2000 ≤ n && n ≤ 0x200A) || n = 0x2028 || n = 0x2029 ||
    n = 0x202F || n = 0x205F || n = 0x3000 || n = 0xFEFF

/-- `String.prototype.trim`. -/
def jsTrim (s : String) : String :=
  String.mk ((s.data.dropWhile isJsWhiteSpace).reverse.dropWhile isJsWhiteSpace).reverse

/-- `handleSendMessage` of `Chat.js`. `newMessage` is the state of the input field,
`hasSocket` says whether the `socket` prop is set and `channelId` is `channel.id`. Returns
the events emitted on the socket and the new state of the input field. -/
def handleSendMessage (newMessage : String) (hasSocket : Bool) (channelId : String) :
    List ClientEvent × String :=
  if jsTrim newMessage = "" || !hasSocket then ([], newMessage)
  else ([ClientEvent.send_message (some ⟨channelId, some (jsTrim newMessage)⟩)], "")

/-- A run of a handler for connection `sender` rejected the request before persisting
anything: an `error` packet goes to the sender, no insert is sent to the store, and no
`new_message` is emitted. -/
def RejectedBeforePersistence (sender : String) (effs : List Effect) : Prop :=
  (∃ m, Effect.emit sender (Event.error m) ∈ effs) ∧
  (∀ c u b, Effect.insertMessage c u b ∉ effs) ∧
  (∀ t i c u n m d, Effect.emit t (Event.new_message i c u n m d) ∉ effs)

/-! ## Identity fields of the emitted events -/

/-- The user id an emitted event carries: `user_id` of `new_message`, `userId` of
`user_typing`, `user_joined_voice` and `user_left_voice`. -/
def Event.userIdField : Event → Option Nat
  | .new_message _ _ user_id _ _ _ => some user_id
  | .user_typing userId _ => some userId
  | .user_joined_voice userId _ => some userId
  | .user_left_voice userId _ => some userId
  | _ => none

/-- The connection id an emitted event carries: `socketId` of `user_joined_voice` and
`user_left_voice`, `fromSocketId` of the relayed negotiation events. -/
def Event.socketIdField : Event → Option String
  | .user_joined_voice _ socketId => some socketId
  | .user_left_voice _ socketId => some socketId
  | .webrtc_offer _ fromSocketId => some fromSocketId
  | .webrtc_answer _ fromSocketId => some fromSocketId
  | .webrtc_ice_candidate _ fromSocketId => some fromSocketId
  | _ => none

/-- The body of a `new_message` event. -/
def Event.messageField : Event → Option (Option String)
  | .new_message _ _ _ _ message _ => some message
  | _ => none

/-! ## Connects and disconnects -/

/-- A connect or a disconnect, as the presence registry sees it. `connect id userId` is a
handshake that passed the middleware with `userId` attached. -/
inductive Session where
  | connect (id : String) (userId : Nat)
  | disconnect (id : String)
deriving DecidableEq, Repr

/-- One connect or disconnect. The library gives every connection an id no live connection
has, so a connect with a live id does not occur and is skipped; a disconnect runs the
`disconnect` handler of the socket with that id, if there is one. -/
def sessionStep (st : Server) : Session → Server
  | .connect id userId => if st.isLive id then st else onConnection st ⟨id, userId⟩
  | .disconnect id =>
    match st.sockets.find? (fun s => s.id = id) with
    | none => st
    | some socket => (disconnect st socket).1

/-- A sequence of connects and disconnects. -/
def sessionRun (st : Server) (steps : List Session) : Server :=
  steps.foldl sessionStep st

/-- No step of the sequence connects a user who has a live connection at that moment. -/
def singleSession (st : Server) : List Session → Bool
  | [] => true
  | .connect id userId :: rest =>
    !(st.sockets.any (fun s => s.userId = userId)) &&
      singleSession (sessionStep st (.connect id userId)) rest
  | .disconnect id :: rest => singleSession (sessionStep st (.disconnect id)) rest

/-- The registry invariant that does hold: connection ids are unique and every entry
`userId -> socketId` is a live connection of that user. -/
def EntriesLive (st : Server) : Prop :=
  (st.sockets.map Socket.id).Nodup ∧ ∀ e ∈ st.onlineUsers, (⟨e.2, e.1⟩ : Socket) ∈ st.sockets

/-- With one connection per user: user ids are unique among the live sockets and every
live socket is its user's entry. -/
def EveryLiveListed (st : Server) : Prop :=
  (st.sockets.map Socket.userId).Nodup ∧
    ∀ s ∈ st.sockets, mapGet st.onlineUsers s.userId = some s.id

/-! ## `VoiceChannel.js`: the client

The component's state (`inCall`, `isMuted`, `connectedUsers`), its two refs
(`localStreamRef`, `peersRef`) and the `RTCPeerConnection` objects it has constructed. The
browser's WebRTC and media calls are collaborators: their outcomes are a parameter (`Rtc`,
and the argument of `joinCall`). A handler runs from start to end as one step. -/

/-- An entry of `connectedUsers`; `userId` is `none` for the placeholder `'remote'`. -/
structure VoiceUser where
  userId : Option Nat
  socketId : String
deriving DecidableEq, Repr

/-- An `RTCPeerConnection` as far as the component uses it: the `socketId` its callbacks
were created for, the tracks added with `addTrack`, the two descriptions, the candidates
added, and whether `close()` was called. -/
structure PeerConnection where
  socketId : String
  tracks : List Nat
  localDescription : Option Payload
  remoteDescription : Option Payload
  candidates : List Payload
  closed : Bool
deriving DecidableEq, Repr

/-- Outcomes of the browser's WebRTC calls on a peer connection: `createOffer` and
`createAnswer` resolve with a description or reject (`none`); the other calls succeed or
throw (`false`). -/
structure Rtc where
  createOffer : PeerConnection → Option Payload
  createAnswer : PeerConnection → Option Payload
  setLocalDescription : PeerConnection → Payload → Bool
  setRemoteDescription : PeerConnection → Payload → Bool
  addIceCandidate : PeerConnection → Payload → Bool

/-- State of one `VoiceChannel` component. `localStream` is `localStreamRef.current` (the
tracks of the stream, or `none` for `null`); `pcs` holds every `RTCPeerConnection`
constructed so far, in order of construction, so that a position identifies an object;
`peers` is `peersRef.current`, from socket id to such a position. -/
structure Client where
  inCall : Bool
  isMuted : Bool
  connectedUsers : List VoiceUser
  localStream : Option (List Nat)
  pcs : List PeerConnection
  peers : List (String × Nat)
deriving DecidableEq, Repr

/-- What a client handler does besides changing the component: events emitted on the
socket, tracks stopped, alerts shown. -/
inductive Action where
  | emit (ev : ClientEvent)
  | stopTrack (track : Nat)
  | alert (message : String)
deriving DecidableEq, Repr

/-- A freshly mounted component. -/
def Client.init : Client :=
  { inCall := false, isMuted := false, connectedUsers := [], localStream := none,
    pcs := [], peers := [] }

/-- `Map.prototype.set` on `peersRef.current`. -/
def peersSet (m : List (String × Nat)) (k : String) (v : Nat) : List (String × Nat) :=
  match m with
  | [] => [(k, v)]
  | (k', v') :: rest => if k' = k then (k, v) :: rest else (k', v') :: peersSet rest k v

/-- `Map.prototype.delete` on `peersRef.current`. -/
def peersDelete (m : List (String × Nat)) (k : String) : List (String × Nat) :=
  m.filter (fun e => e.1 ≠ k)

/-- `Map.prototype.get` on `peersRef.current`. -/
def peersGet (m : List (String × Nat)) (k : String) : Option Nat :=
  (m.find? (fun e => e.1 = k)).map Prod.snd

/-- Replace the object at position `i`. -/
def updateAt (pcs : List PeerConnection) (i : Nat) (f : PeerConnection → PeerConnection) :
    List PeerConnection :=
  match pcs, i with
  | [], _ => []
  | pc :: rest, 0 => f pc :: rest
  | pc :: rest, i + 1 => pc :: updateAt rest i f

/-- `close()` on the object at position `i`. -/
def closeAt (pcs : List PeerConnection) (i : Nat) : List PeerConnection :=
  updateAt pcs i (fun pc => { pc with closed := true })

/-- The `setConnectedUsers` updater of `handleUserJoined` and `handleOffer`. -/
def addUser (users : List VoiceUser) (user : VoiceUser) : List VoiceUser :=
  if users.any (fun u => u.socketId = user.socketId) then users else users ++ [user]

/-- What `createPeerConnection(socketId)` constructs. -/
def newPeerConnection (socketId : String) : PeerConnection :=
  { socketId := socketId, tracks := [], localDescription := none,
    remoteDescription := none, candidates := [], closed := false }

/-- `createPeerConnection(socketId)` followed by the state the handler leaves the new
object in: the object is appended to `pcs` and `peersRef.current.set(socketId, ...)` points
to it. -/
def storePeer (cl : Client) (socketId : String) (pc : PeerConnection) : Client :=
  { cl with pcs := cl.pcs ++ [pc], peers := peersSet cl.peers socketId cl.pcs.length }

/-- `handleUserJoined({ userId, socketId })`. -/
def handleUserJoined (rtc : Rtc) (cl : Client) (userId : Nat) (socketId : String) :
    Client × List Action :=
  match cl.localStream with
  | none => (cl, [])
  | some tracks =>
    let cl1 := { cl with connectedUsers := addUser cl.connectedUsers ⟨some userId, socketId⟩ }
    let pc := { newPeerConnection socketId with tracks := tracks }
    match rtc.createOffer pc with
    | none => (storePeer cl1 socketId pc, [])
    | some offer =>
      if rtc.setLocalDescription pc offer then
        (storePeer cl1 socketId { pc with localDescription := some offer },
          [Action.emit (ClientEvent.webrtc_offer socketId offer)])
      else (storePeer cl1 socketId pc, [])

/-- `handleUserLeft({ userId, socketId })`. -/
def handleUserLeft (cl : Client) (_userId : Nat) (socketId : String) :
    Client × List Action :=
  let users := cl.connectedUsers.filter (fun u => u.socketId ≠ socketId)
  match peersGet cl.peers socketId with
  | some i =>
    ({ cl with connectedUsers := users, pcs := closeAt cl.pcs i,
               peers := peersDelete cl.peers socketId }, [])
  | none => ({ cl with connectedUsers := users }, [])

/-- `handleOffer({ offer, fromSocketId })`. -/
def handleOffer (rtc : Rtc) (cl : Client) (offer : Payload) (fromSocketId : String) :
    Client × List Action :=
  match cl.localStream with
  | none => (cl, [])
  | some tracks =>
    let cl1 := { cl with connectedUsers := addUser cl.connectedUsers ⟨none, fromSocketId⟩ }
    let pc := { newPeerConnection fromSocketId with tracks := tracks }
    if rtc.setRemoteDescription pc offer then
      let pc1 := { pc with remoteDescription := some offer }
      match rtc.createAnswer pc1 with
      | none => (storePeer cl1 fromSocketId pc1, [])
      | some answer =>
        if rtc.setLocalDescription pc1 answer then
          (storePeer cl1 fromSocketId { pc1 with localDescription := some answer },
            [Action.emit (ClientEvent.webrtc_answer fromSocketId answer)])
        else (storePeer cl1 fromSocketId pc1, [])
    else (storePeer cl1 fromSocketId pc, [])

/-- `handleAnswer({ answer, fromSocketId })`. -/
def handleAnswer (rtc : Rtc) (cl : Client) (answer : Payload) (fromSocketId : String) :
    Client × List Action :=
  match peersGet cl.peers fromSocketId with
  | none => (cl, [])
  | some i =>
    match cl.pcs.get? i with
    | none => (cl, [])
    | some pc =>
      if rtc.setRemoteDescription pc answer then
        let pcs := updateAt cl.pcs i (fun pc => { pc with remoteDescription := some answer })
        ({ cl with pcs := pcs }, [])
      else (cl, [])

/-- `handleIceCandidate({ candidate, fromSocketId })`. -/
def handleIceCandidate (rtc : Rtc) (cl : Client) (candidate : Payload)
    (fromSocketId : String) : Client × List Action :=
  match peersGet cl.peers fromSocketId with
  | none => (cl, [])
  | some i =>
    match cl.pcs.get? i with
    | none => (cl, [])
    | some pc =>
      if rtc.addIceCandidate pc candidate then
        let pcs := updateAt cl.pcs i
          (fun pc => { pc with candidates := pc.candidates ++ [candidate] })
        ({ cl with pcs := pcs }, [])
      else (cl, [])

/-- `joinCall()`. `media` is the outcome of `getUserMedia`: the tracks of the stream, or
`none` when it rejects; `hasSocket` says whether the `socket` prop is set and `channelId`
is `channel.id`. -/
def joinCall (media : Option (List Nat)) (hasSocket : Bool) (channelId : String)
    (cl : Client) : Client × List Action :=
  match media with
  | none => (cl, [Action.alert "Could not access microphone. Please check permissions."])
  | some tracks =>
    ({ cl with localStream := some tracks, inCall := true },
      if hasSocket then [Action.emit (ClientEvent.join_voice channelId)] else [])

/-- `leaveCall()`. -/
def leaveCall (hasSocket : Bool) (channelId : String) (cl : Client) :
    Client × List Action :=
  let stops : List Action :=
    match cl.localStream with
    | some tracks => tracks.map Action.stopTrack
    | none => []
  ({ inCall := false, isMuted := false, connectedUsers := [], localStream := none,
     pcs := cl.peers.foldl (fun pcs e => closeAt pcs e.2) cl.pcs, peers := [] },
    stops ++ (if hasSocket then [Action.emit (ClientEvent.leave_voice channelId)] else []))

/-- The listeners the component registers on its socket. -/
def Client.onEvent (rtc : Rtc) (cl : Client) : Event → Client × List Action
  | .user_joined_voice userId socketId => handleUserJoined rtc cl userId socketId
  | .user_left_voice userId socketId => handleUserLeft cl userId socketId
  | .webrtc_offer offer fromSocketId => handleOffer rtc cl offer fromSocketId
  | .webrtc_answer answer fromSocketId => handleAnswer rtc cl answer fromSocketId
  | .webrtc_ice_candidate candidate fromSocketId =>
    handleIceCandidate rtc cl candidate fromSocketId
  | _ => (cl, [])

/-- The events among the actions. -/
def emitted : List Action → List ClientEvent
  | [] => []
  | Action.emit ev :: rest => ev :: emitted rest
  | _ :: rest => emitted rest

/-- A browser in which every WebRTC call succeeds; the offer of a connection is named
after the peer it is for. -/
def okRtc : Rtc :=
  { createOffer := fun pc => some ("offer for " ++ pc.socketId)
    createAnswer := fun pc => some ("answer for " ++ pc.socketId)
    setLocalDescription := fun _ _ => true
    setRemoteDescription := fun _ _ => true
    addIceCandidate := fun _ _ => true }

/-- A browser in which every WebRTC call fails. -/
def failingRtc : Rtc :=
  { createOffer := fun _ => none
    createAnswer := fun _ => none
    setLocalDescription := fun _ _ => false
    setRemoteDescription := fun _ _ => false
    addIceCandidate := fun _ _ => false }

/-- A component in a call with local tracks 0 and 1 and one peer connection, to `b`. -/
def exClient : Client :=
  { inCall := true, isMuted := true,
    connectedUsers := [⟨some 2, "b"⟩],
    localStream := some [0, 1],
    pcs := [{ newPeerConnection "b" with tracks := [0, 1] }],
    peers := [("b", 0)] }

/-! ## Server and clients together -/

/-- The server, the `VoiceChannel` component behind each connection, and the packets the
server has delivered so far, oldest first. -/
structure System where
  server : Server
  clients : List (String × Client)
  delivered : List (String × Event)

/-- Run `f` in the component of connection `id`. Returns the components and the events the
component emitted, each with the id of the connection it is emitted on. -/
def applyAt (clients : List (String × Client)) (id : String)
    (f : Client → Client × List Action) :
    List (String × Client) × List (String × ClientEvent) :=
  match clients with
  | [] => ([], [])
  | (id', cl) :: rest =>
    if id' = id then ((id', (f cl).1) :: rest, (emitted (f cl).2).map (fun ev => (id', ev)))
    else ((id', cl) :: (applyAt rest id f).1, (applyAt rest id f).2)

/-- Deliver packets, in order: the component of each target runs its listener. -/
def deliverAll (rtc : Rtc) (clients : List (String × Client)) :
    List (String × Event) → List (String × Client) × List (String × ClientEvent)
  | [] => (clients, [])
  | pkt :: rest =>
    let r := applyAt clients pkt.1 (fun cl => cl.onEvent rtc pkt.2)
    let r' := deliverAll rtc r.1 rest
    (r'.1, r.2 ++ r'.2)

/-- Handle the events waiting at the server one at a time; the packets each one causes are
delivered at once and the events the components emit in response join the queue. The
result is `none` when `fuel` steps did not empty the queue. -/
def pump (db : Store) (now : Nat) (rtc : Rtc) :
    Nat → System → List (String × ClientEvent) → Option System
  | _, sys, [] => some sys
  | 0, _, _ :: _ => none
  | fuel + 1, sys, (id, ev) :: rest =>
    let r := dispatch db now sys.server id ev
    let d := deliverAll rtc sys.clients (emits r.2)
    pump db now rtc fuel
      { server := r.1, clients := d.1, delivered := sys.delivered ++ emits r.2 }
      (rest ++ d.2)

/-- What the user of a component does. -/
inductive UserAction where
  | joinCall (media : Option (List Nat)) (channelId : String)
  | leaveCall (channelId : String)
deriving DecidableEq, Repr

/-- The user of connection `id` acts, and the events this causes are handled to the end. -/
def System.act (db : Store) (now : Nat) (rtc : Rtc) (fuel : Nat) (sys : System)
    (id : String) : UserAction → Option System
  | .joinCall media channelId =>
    let r := applyAt sys.clients id (joinCall media true channelId)
    pump db now rtc fuel { sys with clients := r.1 } r.2
  | .leaveCall channelId =>
    let r := applyAt sys.clients id (leaveCall true channelId)
    pump db now rtc fuel { sys with clients := r.1 } r.2

/-- A sequence of user actions, each with the connection it happens on. -/
def System.run (db : Store) (now : Nat) (rtc : Rtc) (fuel : Nat) :
    System → List (String × UserAction) → Option System
  | sys, [] => some sys
  | sys, (id, a) :: rest =>
    match sys.act db now rtc fuel id a with
    | none => none
    | some sys' => System.run db now rtc fuel sys' rest

/-- The offers among delivered packets, as `(sender, receiver)`. -/
def offers : List (String × Event) → List (String × String)
  | [] => []
  | (target, Event.webrtc_offer _ fromSocketId) :: rest =>
    (fromSocketId, target) :: offers rest
  | _ :: rest => offers rest

/-- Number of offers exchanged between `x` and `y`, in either direction. -/
def offersBetween (log : List (String × Event)) (x y : String) : Nat :=
  ((offers log).filter (fun p => (p.1 = x ∧ p.2 = y) ∨ (p.1 = y ∧ p.2 = x))).length

/-- The peer connections of component `id` that are for `remote` and not closed. -/
def openLinks (clients : List (String × Client)) (id remote : String) : Nat :=
  match clients.find? (fun e => e.1 = id) with
  | none => 0
  | some e => (e.2.pcs.filter (fun pc => pc.socketId = remote ∧ pc.closed = false)).length

/-- Connections `x`, `y`, `z` of users 1, 2, 3, each with a freshly mounted component. -/
def exSystem : System :=
  { server := sessionRun Server.init
      [Session.connect "x" 1, Session.connect "y" 2, Session.connect "z" 3]
    clients := [("x", Client.init), ("y", Client.init), ("z", Client.init)]
    delivered := [] }

/-! ## Sequences of client events -/

/-- What can happen to a component in a call: the three events from the server that create
or discard peer connections, and the user leaving the call. -/
inductive ClientStep where
  | user_joined_voice (userId : Nat) (socketId : String)
  | webrtc_offer (offer : Payload) (fromSocketId : String)
  | user_left_voice (userId : Nat) (socketId : String)
  | leaveCall
deriving DecidableEq, Repr

/-- One step of a component. -/
def clientStep (rtc : Rtc) (hasSocket : Bool) (channelId : String) (cl : Client) :
    ClientStep → Client
  | .user_joined_voice userId socketId => (handleUserJoined rtc cl userId socketId).1
  | .webrtc_offer offer fromSocketId => (handleOffer rtc cl offer fromSocketId).1
  | .user_left_voice userId socketId => (handleUserLeft cl userId socketId).1
  | .leaveCall => (leaveCall hasSocket channelId cl).1

/-- A sequence of steps of a component. -/
def clientRun (rtc : Rtc) (hasSocket : Bool) (channelId : String) (cl : Client)
    (steps : List ClientStep) : Client :=
  steps.foldl (clientStep rtc hasSocket channelId) cl

/-- The positions of the leaked peer connections: constructed, not closed, and not the
entry of the table under their remote connection id. -/
def leaked (cl : Client) : List Nat :=
  (List.range cl.pcs.length).filter (fun i =>
    match cl.pcs.get? i with
    | some pc => !pc.closed && decide (peersGet cl.peers pc.socketId ≠ some i)
    | none => false)

/-- Every peer connection ever constructed is closed or is the entry of the table under
its remote connection id. -/
def NoLeak (cl : Client) : Prop :=
  ∀ i pc, cl.pcs.get? i = some pc → pc.closed = true ∨ peersGet cl.peers pc.socketId = some i

/-- A step that does not create a peer connection for a remote id the table already has
an entry for. -/
def freshStep (cl : Client) : ClientStep → Prop
  | .user_joined_voice _ socketId => peersGet cl.peers socketId = none
  | .webrtc_offer _ fromSocketId => peersGet cl.peers fromSocketId = none
  | _ => True

/-- A component right after `joinCall` succeeded with one track, in voice channel `v`. -/
def inCallClient : Client :=
  (joinCall (some [0]) true "v" Client.init).1

/-! ## Example states -/

/-- Rooms of `exServer`. -/
def exRooms : String → List String := fun r =>
  if r = "a" then ["a"]
  else if r = "b" then ["b"]
  else if r = "c" then ["c"]
  else if r = "channel_7" then ["a", "b"]
  else if r = "voice_7" then ["a", "b"]
  else []

/-- Three connections `a`, `b`, `c` of users 1, 2, 3; `a` and `b` have joined text channel
7 and voice channel 7. -/
def exServer : Server :=
  { sockets := [⟨"a", 1⟩, ⟨"b", 2⟩, ⟨"c", 3⟩]
    rooms := exRooms
    onlineUsers := [(1, "a"), (2, "b"), (3, "c")] }

/-- A store in which every insert succeeds with id 10 and every user is called `alice`. -/
def exStore : Store :=
  { insert := fun _ _ _ => some 10, usernames := fun _ => some ["alice"] }

/-- A store in which every insert rejects. -/
def failingStore : Store :=
  { insert := fun _ _ _ => none, usernames := fun _ => some ["alice"] }

/-! ## Basic facts about the primitives -/

theorem isLive_iff (st : Server) (id : String) :
    st.isLive id = true ↔ ∃ s ∈ st.sockets, s.id = id := by
  simp [Server.isLive]

theorem isLive_of_mem {st : Server} {s : Socket} (h : s ∈ st.sockets) :
    st.isLive s.id = true :=
  (isLive_iff st s.id).2 ⟨s, h, rfl⟩

theorem emits_append (xs ys : List Effect) : emits (xs ++ ys) = emits xs ++ emits ys := by
  induction xs with
  | nil => rfl
  | cons x xs ih => cases x <;> simp [emits, ih]

theorem emits_map_emit (ids : List String) (ev : Event) :
    emits (ids.map (fun id => Effect.emit id ev)) = ids.map (fun id => (id, ev)) := by
  induction ids with
  | nil => rfl
  | cons x xs ih => simp [emits, ih]

theorem emits_broadcast (st : Server) (room : String) (except : List String) (ev : Event) :
    emits (st.broadcast room except ev) =
      ((st.rooms room).filter
        (fun id => decide (id ∉ except.flatMap st.rooms) && st.isLive id)).map
        (fun id => (id, ev)) := by
  unfold Server.broadcast
  exact emits_map_emit _ ev

theorem mem_emits_broadcast (st : Server) (room : String) (except : List String)
    (ev : Event) (id : String) (ev' : Event) :
    (id, ev') ∈ emits (st.broadcast room except ev) ↔
      ev' = ev ∧ id ∈ st.rooms room ∧ id ∉ except.flatMap st.rooms ∧ st.isLive id = true := by
  rw [emits_broadcast]
  simp only [List.mem_map, List.mem_filter, Bool.and_eq_true, decide_eq_true_eq,
    Prod.mk.injEq]
  constructor
  · rintro ⟨a, ⟨h1, h2, h3⟩, rfl, rfl⟩
    exact ⟨rfl, h1, h2, h3⟩
  · rintro ⟨rfl, h1, h2, h3⟩
    exact ⟨id, ⟨h1, h2, h3⟩, rfl, rfl⟩

theorem mem_emits_ioTo (st : Server) (room : String) (ev : Event) (id : String)
    (ev' : Event) :
    (id, ev') ∈ emits (st.ioTo room ev) ↔
      ev' = ev ∧ id ∈ st.rooms room ∧ st.isLive id = true := by
  unfold Server.ioTo
  rw [mem_emits_broadcast]
  simp

theorem mem_emits_socketTo (st : Server) (socket : Socket) (room : String) (ev : Event)
    (id : String) (ev' : Event) :
    (id, ev') ∈ emits (st.socketTo socket room ev) ↔
      ev' = ev ∧ id ∈ st.rooms room ∧ id ∉ st.rooms socket.id ∧ st.isLive id = true := by
  unfold Server.socketTo
  rw [mem_emits_broadcast]
  simp

theorem mem_setAdd (xs : List String) (x y : String) :
    y ∈ setAdd xs x ↔ y ∈ xs ∨ y = x := by
  unfold setAdd
  split
  · constructor
    · exact fun h => Or.inl h
    · rintro (h | rfl)
      · exact h
      · assumption
  · simp

theorem setAdd_idem (xs : List String) (x : String) : setAdd (setAdd xs x) x = setAdd xs x := by
  have h : x ∈ setAdd xs x := (mem_setAdd xs x x).2 (Or.inr rfl)
  generalize setAdd xs x = ys at h ⊢
  unfold setAdd
  rw [if_pos h]

theorem nodup_setAdd {xs : List String} (x : String) (h : xs.Nodup) : (setAdd xs x).Nodup := by
  unfold setAdd
  split
  · exact h
  · rename_i hx
    exact List.Nodup.append h (List.nodup_singleton x) (by simpa using hx)

theorem mem_setDelete (xs : List String) (x y : String) :
    y ∈ setDelete xs x ↔ y ∈ xs ∧ y ≠ x := by
  simp [setDelete]

theorem nodup_setDelete {xs : List String} (x : String) (h : xs.Nodup) :
    (setDelete xs x).Nodup :=
  h.filter _

theorem exServer_WF : exServer.WF where
  sockets_nodup := by decide
  rooms_nodup := by
    intro r
    simp only [exServer, exRooms]
    split_ifs <;> decide
  rooms_live := by
    intro r id
    simp only [exServer, exRooms]
    split_ifs <;> intro h <;> simp at h <;> rcases h with rfl | rfl <;> decide
  own_room := by
    intro s hs
    simp only [exServer, List.mem_cons, List.mem_singleton, List.not_mem_nil, or_false] at hs
    rcases hs with rfl | rfl | rfl <;> rfl

/-! ### Well-formedness is maintained

Joining or leaving a room whose name is not a connection id, connecting with a fresh id and
disconnecting all keep a state well-formed. -/

theorem WF_init : Server.init.WF where
  sockets_nodup := List.nodup_nil
  rooms_nodup := fun _ => List.nodup_nil
  rooms_live := by intro r id h; simp [Server.init] at h
  own_room := by intro s hs; simp [Server.init] at hs

theorem WF_join {st : Server} (hwf : st.WF) {id room : String}
    (hlive : st.isLive id = true) (hroom : st.isLive room = false) :
    (st.join id room).WF where
  sockets_nodup := hwf.sockets_nodup
  rooms_nodup := by
    intro r
    simp only [Server.join]
    split
    · exact nodup_setAdd _ (hwf.rooms_nodup r)
    · exact hwf.rooms_nodup r
  rooms_live := by
    intro r x hx
    simp only [Server.join] at hx
    split at hx
    · rcases (mem_setAdd _ _ _).1 hx with h | rfl
      · exact hwf.rooms_live r x h
      · exact hlive
    · exact hwf.rooms_live r x hx
  own_room := by
    intro s hs
    have hs' : s ∈ st.sockets := hs
    have hne : s.id ≠ room := by
      rintro rfl
      have := isLive_of_mem hs'
      simp [hroom] at this
    simp only [Server.join, if_neg hne]
    exact hwf.own_room s hs

theorem WF_leave {st : Server} (hwf : st.WF) {id room : String}
    (hroom : st.isLive room = false) : (st.leave id room).WF where
  sockets_nodup := hwf.sockets_nodup
  rooms_nodup := by
    intro r
    simp only [Server.leave]
    split
    · exact nodup_setDelete _ (hwf.rooms_nodup r)
    · exact hwf.rooms_nodup r
  rooms_live := by
    intro r x hx
    simp only [Server.leave] at hx
    split at hx
    · exact hwf.rooms_live r x ((mem_setDelete _ _ _).1 hx).1
    · exact hwf.rooms_live r x hx
  own_room := by
    intro s hs
    have hs' : s ∈ st.sockets := hs
    have hne : s.id ≠ room := by
      rintro rfl
      have := isLive_of_mem hs'
      simp [hroom] at this
    simp only [Server.leave, if_neg hne]
    exact hwf.own_room s hs

theorem WF_onConnection {st : Server} (hwf : st.WF) {socket : Socket}
    (hfresh : st.isLive socket.id = false) (hempty : st.rooms socket.id = []) :
    (onConnection st socket).WF where
  sockets_nodup := by
    simp only [onConnection, Server.join, List.map_append, List.map_cons, List.map_nil]
    refine List.Nodup.append hwf.sockets_nodup (List.nodup_singleton _) ?_
    intro x hx hx'
    rw [List.mem_singleton] at hx'
    subst hx'
    obtain ⟨s, hs, hid⟩ := List.mem_map.1 hx
    have := (isLive_iff st socket.id).2 ⟨s, hs, hid⟩
    simp [hfresh] at this
  rooms_nodup := by
    intro r
    simp only [onConnection, Server.join]
    split
    · exact nodup_setAdd _ (hwf.rooms_nodup r)
    · exact hwf.rooms_nodup r
  rooms_live := by
    intro r x hx
    rw [isLive_iff]
    simp only [onConnection, Server.join] at hx ⊢
    have hold : x ∈ st.rooms r → ∃ s ∈ st.sockets ++ [socket], s.id = x := by
      intro h
      obtain ⟨s, hs, hid⟩ := (isLive_iff st x).1 (hwf.rooms_live r x h)
      exact ⟨s, List.mem_append_left _ hs, hid⟩
    split at hx
    · rcases (mem_setAdd _ _ _).1 hx with h | rfl
      · exact hold h
      · exact ⟨socket, by simp, rfl⟩
    · exact hold hx
  own_room := by
    intro s hs
    simp only [onConnection, Server.join] at hs ⊢
    rcases List.mem_append.1 hs with h | h
    · have hne : s.id ≠ socket.id := by
        intro heq
        have := isLive_of_mem h
        rw [heq, hfresh] at this
        simp at this
      rw [if_neg hne]
      exact hwf.own_room s h
    · rw [List.mem_singleton] at h
      subst h
      simp [hempty, setAdd]

theorem WF_disconnect {st : Server} (hwf : st.WF) (socket : Socket) :
    (disconnect st socket).1.WF where
  sockets_nodup := by
    simp only [disconnect, Server.delAll]
    exact (hwf.sockets_nodup.sublist (List.Sublist.map _ (List.filter_sublist _)))
  rooms_nodup := by
    intro r
    simp only [disconnect, Server.delAll]
    exact nodup_setDelete _ (hwf.rooms_nodup r)
  rooms_live := by
    intro r x hx
    simp only [disconnect, Server.delAll] at hx
    obtain ⟨hmem, hne⟩ := (mem_setDelete _ _ _).1 hx
    obtain ⟨s, hs, hid⟩ := (isLive_iff st x).1 (hwf.rooms_live r x hmem)
    rw [isLive_iff]
    refine ⟨s, ?_, hid⟩
    simp only [disconnect, Server.delAll]
    exact List.mem_filter.2 ⟨hs, by simpa [hid] using hne⟩
  own_room := by
    intro s hs
    simp only [disconnect, Server.delAll] at hs ⊢
    obtain ⟨hmem, hne⟩ := List.mem_filter.1 hs
    have hne' : s.id ≠ socket.id := by simpa using hne
    rw [hwf.own_room s hmem]
    simp [setDelete, hne']

/-! ## Message broadcast -/

/-- C1. When `send_message` for channel `channelId` succeeds (the insert resolves and the
username lookup returns a row), a live connection `S` receives the resulting
`new_message` if and only if `S` is a member of the channel's text room at that moment;
nothing but that `new_message` is emitted; and the sender's own connection receives it
whenever it is a member of the room. -/
theorem send_message_recipients (db : Store) (now : Nat) (st : Server) (socket : Socket)
    (channelId : String) (message : Option String) (insertId : Nat) (username : String)
    (others : List String)
    (hins : db.insert channelId socket.userId (bodyOrDefault message) = some insertId)
    (husr : db.usernames socket.userId = some (username :: others)) :
    (∀ S ∈ st.sockets,
      ((S.id, Event.new_message insertId channelId socket.userId username message now) ∈
          emits (send_message db now st socket channelId message).2 ↔
        S.id ∈ st.rooms (channelRoom channelId))) ∧
    (∀ p ∈ emits (send_message db now st socket channelId message).2,
      p.2 = Event.new_message insertId channelId socket.userId username message now) ∧
    (socket ∈ st.sockets → socket.id ∈ st.rooms (channelRoom channelId) →
      (socket.id, Event.new_message insertId channelId socket.userId username message now) ∈
        emits (send_message db now st socket channelId message).2) := by
  have hs : (send_message db now st socket channelId message).2 =
      [Effect.insertMessage channelId socket.userId (bodyOrDefault message),
        Effect.selectUsername socket.userId] ++
      st.ioTo (channelRoom channelId)
        (Event.new_message insertId channelId socket.userId username message now) := by
    simp [send_message, hins, husr]
  have he : emits (send_message db now st socket channelId message).2 =
      emits (st.ioTo (channelRoom channelId)
        (Event.new_message insertId channelId socket.userId username message now)) := by
    rw [hs, emits_append]; rfl
  rw [he]
  refine ⟨?_, ?_, ?_⟩
  · intro S hS
    rw [mem_emits_ioTo]
    constructor
    · exact fun h => h.2.1
    · exact fun h => ⟨rfl, h, isLive_of_mem hS⟩
  · rintro ⟨id, ev'⟩ hp
    exact ((mem_emits_ioTo _ _ _ _ _).1 hp).1
  · intro hS hmem
    exact (mem_emits_ioTo _ _ _ _ _).2 ⟨rfl, hmem, isLive_of_mem hS⟩

/-- C1, at a concrete input: `a` sends "hi" to channel 7 of `exServer`. -/
theorem send_message_recipients_witness :
    exStore.insert "7" 1 (bodyOrDefault (some "hi")) = some 10 ∧
    exStore.usernames 1 = some ["alice"] ∧
    (∀ S ∈ exServer.sockets,
      ((S.id, Event.new_message 10 "7" 1 "alice" (some "hi") 0) ∈
          emits (send_message exStore 0 exServer ⟨"a", 1⟩ "7" (some "hi")).2 ↔
        S.id ∈ exServer.rooms (channelRoom "7"))) :=
  ⟨rfl, rfl,
    (send_message_recipients exStore 0 exServer ⟨"a", 1⟩ "7" (some "hi") 10 "alice" []
      rfl rfl).1⟩

/-- C2, as stated, fails: a body of three spaces is empty after trimming, yet the
server's `send_message` handler sends it to the store and broadcasts it. -/
theorem send_message_blank_not_rejected :
    jsTrim "   " = "" ∧
    ¬ RejectedBeforePersistence "a"
        (on_send_message exStore 0 exServer ⟨"a", 1⟩ (some ⟨"7", some "   "⟩)).2 := by
  refine ⟨by decide, ?_⟩
  rintro ⟨_, h, _⟩
  exact h "7" 1 "   " (by decide)

/-- C2, amended. A body that is empty after trimming is stopped by the client:
`handleSendMessage` emits nothing and leaves the input as it is. The server's
`send_message` handler does not validate the body. For a payload with the fields
`channelId` and `message`, whatever the body, the first thing it does is send the insert
to the store; when the insert resolves and the lookup returns a row, the `new_message` is
broadcast to the room; it emits an `error` packet exactly when the insert rejects, the
lookup rejects or the lookup returns no row, and that packet is "Failed to send message",
to the sender. A `null` or `undefined` payload is answered with that same packet, to the
sender, and no query is sent. -/
theorem empty_body_stopped_by_client (newMessage : String) (hasSocket : Bool)
    (channelId : String) (db : Store) (now : Nat) (st : Server) (socket : Socket)
    (message : Option String) (h : jsTrim newMessage = "") :
    handleSendMessage newMessage hasSocket channelId = ([], newMessage) ∧
    (∃ rest, (on_send_message db now st socket (some ⟨channelId, message⟩)).2 =
      Effect.insertMessage channelId socket.userId (bodyOrDefault message) :: rest) ∧
    (∀ insertId username others,
      db.insert channelId socket.userId (bodyOrDefault message) = some insertId →
      db.usernames socket.userId = some (username :: others) →
      (on_send_message db now st socket (some ⟨channelId, message⟩)).2 =
        [Effect.insertMessage channelId socket.userId (bodyOrDefault message),
          Effect.selectUsername socket.userId] ++
        st.ioTo (channelRoom channelId)
          (Event.new_message insertId channelId socket.userId username message now)) ∧
    (∀ t m, Effect.emit t (Event.error m) ∈
        (on_send_message db now st socket (some ⟨channelId, message⟩)).2 →
      t = socket.id ∧ m = "Failed to send message" ∧
        (db.insert channelId socket.userId (bodyOrDefault message) = none ∨
          db.usernames socket.userId = none ∨ db.usernames socket.userId = some [])) ∧
    ((db.insert channelId socket.userId (bodyOrDefault message) = none ∨
        db.usernames socket.userId = none ∨ db.usernames socket.userId = some []) →
      emits (on_send_message db now st socket (some ⟨channelId, message⟩)).2 =
        [(socket.id, Event.error "Failed to send message")]) ∧
    on_send_message db now st socket none =
      (st, [Effect.emit socket.id (Event.error "Failed to send message")]) := by
  have hon : on_send_message db now st socket (some ⟨channelId, message⟩) =
      send_message db now st socket channelId message := rfl
  rw [hon]
  refine ⟨by simp [handleSendMessage, h], ?_, ?_, ?_, ?_, rfl⟩
  · unfold send_message
    cases db.insert channelId socket.userId (bodyOrDefault message) with
    | none => exact ⟨_, rfl⟩
    | some insertId =>
      cases db.usernames socket.userId with
      | none => exact ⟨_, rfl⟩
      | some rows =>
        cases rows with
        | nil => exact ⟨_, rfl⟩
        | cons u us => exact ⟨_, rfl⟩
  · intro insertId username others hins husr
    simp [send_message, hins, husr]
  · intro t m
    unfold send_message
    cases hi : db.insert channelId socket.userId (bodyOrDefault message) with
    | none =>
      simp only [List.mem_cons, List.mem_singleton, false_or, Effect.emit.injEq,
        sendFailed, Event.error.injEq, List.not_mem_nil, or_false, reduceCtorEq]
      rintro ⟨rfl, rfl⟩
      exact ⟨rfl, rfl, by simp⟩
    | some insertId =>
      cases hu : db.usernames socket.userId with
      | none =>
        simp only [List.mem_cons, List.mem_singleton, false_or, Effect.emit.injEq,
          sendFailed, Event.error.injEq, List.not_mem_nil, or_false, reduceCtorEq]
        rintro ⟨rfl, rfl⟩
        exact ⟨rfl, rfl, by simp⟩
      | some rows =>
        cases rows with
        | nil =>
          simp only [List.mem_cons, List.mem_singleton, false_or, Effect.emit.injEq,
            sendFailed, Event.error.injEq, List.not_mem_nil, or_false, reduceCtorEq]
          rintro ⟨rfl, rfl⟩
          exact ⟨rfl, rfl, by simp⟩
        | cons u us =>
          intro hmem
          simp [Server.ioTo, Server.broadcast] at hmem
  · intro hfail
    unfold send_message
    cases hi : db.insert channelId socket.userId (bodyOrDefault message) with
    | none => simp [emits, sendFailed]
    | some insertId =>
      cases hu : db.usernames socket.userId with
      | none => simp [emits, sendFailed]
      | some rows =>
        cases rows with
        | nil => simp [emits, sendFailed]
        | cons u us =>
          rw [hi, hu] at hfail
          simp at hfail

/-- C2, amended, at a concrete input: the input field holds a tab and two spaces; and
connection `a` sends `send_message` with a `null` payload. -/
theorem empty_body_stopped_by_client_witness :
    jsTrim "\t  " = "" ∧ handleSendMessage "\t  " true "7" = ([], "\t  ") ∧
    (on_send_message exStore 0 exServer ⟨"a", 1⟩ none).2 =
      [Effect.emit "a" (Event.error "Failed to send message")] :=
  ⟨by decide,
    (empty_body_stopped_by_client "\t  " true "7" exStore 0 exServer ⟨"a", 1⟩ none
      (by decide)).1,
    congrArg Prod.snd
      (empty_body_stopped_by_client "\t  " true "7" exStore 0 exServer ⟨"a", 1⟩ none
        (by decide)).2.2.2.2.2⟩

/-- C3. When the store insert of a `send_message` fails, the only packet emitted is one
`error` event, to the sending connection; no `new_message` goes to any connection; and
the server state (every room's membership and the `onlineUsers` map) is unchanged. -/
theorem send_message_insert_fails (db : Store) (now : Nat) (st : Server) (socket : Socket)
    (channelId : String) (message : Option String)
    (hins : db.insert channelId socket.userId (bodyOrDefault message) = none) :
    emits (send_message db now st socket channelId message).2 =
      [(socket.id, Event.error "Failed to send message")] ∧
    (∀ t i c u n m d, (t, Event.new_message i c u n m d) ∉
      emits (send_message db now st socket channelId message).2) ∧
    (send_message db now st socket channelId message).1 = st ∧
    (∀ r, (send_message db now st socket channelId message).1.rooms r = st.rooms r) ∧
    (send_message db now st socket channelId message).1.onlineUsers = st.onlineUsers := by
  have hs : send_message db now st socket channelId message =
      (st, [Effect.insertMessage channelId socket.userId (bodyOrDefault message),
        Effect.emit socket.id sendFailed]) := by
    simp [send_message, hins]
  rw [hs]
  simp [emits, sendFailed]

/-- C3, at a concrete input: `a` sends "hi" while every insert fails. -/
theorem send_message_insert_fails_witness :
    failingStore.insert "7" 1 (bodyOrDefault (some "hi")) = none ∧
    emits (send_message failingStore 0 exServer ⟨"a", 1⟩ "7" (some "hi")).2 =
      [("a", Event.error "Failed to send message")] :=
  ⟨rfl, (send_message_insert_fails failingStore 0 exServer ⟨"a", 1⟩ "7" (some "hi") rfl).1⟩

/-! ## Room membership -/

/-- C4. `join_channel` is idempotent: handling it a second time from the same connection
gives the very state the first handling gave, so the room has the same members and the
same size; the connection is in the room exactly once; and every other room is as it was
before the first join. -/
theorem join_channel_idempotent (st : Server) (socket : Socket) (channelId : String)
    (hset : (st.rooms (channelRoom channelId)).Nodup) :
    (join_channel (join_channel st socket channelId).1 socket channelId).1 =
      (join_channel st socket channelId).1 ∧
    ((join_channel (join_channel st socket channelId).1 socket channelId).1.rooms
        (channelRoom channelId)).length =
      ((join_channel st socket channelId).1.rooms (channelRoom channelId)).length ∧
    ((join_channel (join_channel st socket channelId).1 socket channelId).1.rooms
        (channelRoom channelId)).count socket.id = 1 ∧
    (∀ r, r ≠ channelRoom channelId →
      (join_channel (join_channel st socket channelId).1 socket channelId).1.rooms r =
        st.rooms r) := by
  have h2 : (join_channel (join_channel st socket channelId).1 socket channelId).1 =
      (join_channel st socket channelId).1 := by
    simp only [join_channel, Server.join]
    congr 1
    funext r
    split
    · exact setAdd_idem _ _
    · rfl
  have h1 : (join_channel st socket channelId).1.rooms (channelRoom channelId) =
      setAdd (st.rooms (channelRoom channelId)) socket.id := by
    simp [join_channel, Server.join]
  refine ⟨h2, by rw [h2], ?_, ?_⟩
  · rw [h2, h1]
    exact List.count_eq_one_of_mem (nodup_setAdd _ hset)
      ((mem_setAdd _ _ _).2 (Or.inr rfl))
  · intro r hr
    rw [h2]
    simp [join_channel, Server.join, hr]

/-- C4, at a concrete input: `c` joins channel 7 of `exServer` twice. -/
theorem join_channel_idempotent_witness :
    (exServer.rooms (channelRoom "7")).Nodup ∧
    (join_channel (join_channel exServer ⟨"c", 3⟩ "7").1 ⟨"c", 3⟩ "7").1 =
      (join_channel exServer ⟨"c", 3⟩ "7").1 :=
  ⟨exServer_WF.rooms_nodup _,
    (join_channel_idempotent exServer ⟨"c", 3⟩ "7" (exServer_WF.rooms_nodup _)).1⟩

/-- C5. In a well-formed state, `join_voice` from a live connection `socket` puts it in
the voice room whatever the size of the room (no cap), leaves every other room as it was,
and emits `user_joined_voice` with the joiner's `userId` and `socketId`, once each, to
exactly the connections that were members of the room before and are not the joiner;
nothing else is emitted. -/
theorem join_voice_notifies_others (st : Server) (socket : Socket) (channelId : String)
    (hwf : st.WF) (hlive : socket ∈ st.sockets) :
    (join_voice st socket channelId).1.rooms (voiceRoom channelId) =
      setAdd (st.rooms (voiceRoom channelId)) socket.id ∧
    socket.id ∈ (join_voice st socket channelId).1.rooms (voiceRoom channelId) ∧
    (∀ r, r ≠ voiceRoom channelId → (join_voice st socket channelId).1.rooms r = st.rooms r) ∧
    (∀ T, (T, Event.user_joined_voice socket.userId socket.id) ∈
          emits (join_voice st socket channelId).2 ↔
        T ∈ st.rooms (voiceRoom channelId) ∧ T ≠ socket.id) ∧
    (∀ p ∈ emits (join_voice st socket channelId).2,
      p.2 = Event.user_joined_voice socket.userId socket.id) ∧
    (emits (join_voice st socket channelId).2).Nodup ∧
    (join_voice st socket channelId).2.length = (emits (join_voice st socket channelId).2).length
    := by
  have hroom : (join_voice st socket channelId).1.rooms (voiceRoom channelId) =
      setAdd (st.rooms (voiceRoom channelId)) socket.id := by
    simp [join_voice, Server.join]
  have hown : (st.join socket.id (voiceRoom channelId)).rooms socket.id = [socket.id] := by
    simp only [Server.join]
    split
    · rw [hwf.own_room socket hlive]
      simp [setAdd]
    · exact hwf.own_room socket hlive
  have hlv : ∀ T, (st.join socket.id (voiceRoom channelId)).isLive T = st.isLive T :=
    fun _ => rfl
  have heff : (join_voice st socket channelId).2 =
      (st.join socket.id (voiceRoom channelId)).socketTo socket (voiceRoom channelId)
        (Event.user_joined_voice socket.userId socket.id) := rfl
  refine ⟨hroom, ?_, ?_, ?_, ?_, ?_, ?_⟩
  · rw [hroom]
    exact (mem_setAdd _ _ _).2 (Or.inr rfl)
  · intro r hr
    simp [join_voice, Server.join, hr]
  · intro T
    rw [heff, mem_emits_socketTo, hown, hlv]
    have hr2 : (st.join socket.id (voiceRoom channelId)).rooms (voiceRoom channelId) =
        setAdd (st.rooms (voiceRoom channelId)) socket.id := hroom
    rw [hr2, mem_setAdd]
    constructor
    · rintro ⟨_, hmem, hne, _⟩
      have hne' : T ≠ socket.id := by simpa using hne
      rcases hmem with hmem | heq
      · exact ⟨hmem, hne'⟩
      · exact absurd heq hne'
    · rintro ⟨hmem, hne⟩
      exact ⟨rfl, Or.inl hmem, by simpa using hne, hwf.rooms_live _ _ hmem⟩
  · rintro ⟨T, ev⟩ hp
    rw [heff] at hp
    exact ((mem_emits_socketTo _ _ _ _ _ _).1 hp).1
  · rw [heff]
    unfold Server.socketTo
    rw [emits_broadcast]
    refine List.Nodup.map ?_ (List.Nodup.filter _ ?_)
    · intro a b hab
      exact (Prod.mk.inj hab).1
    · have hr2 : (st.join socket.id (voiceRoom channelId)).rooms (voiceRoom channelId) =
          setAdd (st.rooms (voiceRoom channelId)) socket.id := hroom
      rw [hr2]
      exact nodup_setAdd _ (hwf.rooms_nodup _)
  · rw [heff]
    unfold Server.socketTo
    rw [emits_broadcast]
    simp [Server.broadcast]

/-- C5, at a concrete input: `c` joins voice channel 7 of `exServer`, where `a` and `b`
already are; `a` and `b` are notified, `c` is not. -/
theorem join_voice_notifies_others_witness :
    exServer.WF ∧ (⟨"c", 3⟩ : Socket) ∈ exServer.sockets ∧
    (∀ T, (T, Event.user_joined_voice 3 "c") ∈ emits (join_voice exServer ⟨"c", 3⟩ "7").2 ↔
        T ∈ exServer.rooms (voiceRoom "7") ∧ T ≠ "c") :=
  ⟨exServer_WF, by decide,
    (join_voice_notifies_others exServer ⟨"c", 3⟩ "7" exServer_WF (by decide)).2.2.2.1⟩

/-- C6. In a well-formed state, `leave_voice` from a live connection `socket` removes it
from the voice room, leaves every other room as it was, and emits `user_left_voice` with
the leaver's `userId` and `socketId`, once each, to exactly the members that remain (the
members other than the leaver), never to the leaver; nothing else is emitted. -/
theorem leave_voice_notifies_remaining (st : Server) (socket : Socket) (channelId : String)
    (hwf : st.WF) (hlive : socket ∈ st.sockets) :
    (leave_voice st socket channelId).1.sockets = st.sockets ∧
    socket.id ∉ (leave_voice st socket channelId).1.rooms (voiceRoom channelId) ∧
    (∀ T, T ∈ (leave_voice st socket channelId).1.rooms (voiceRoom channelId) ↔
      T ∈ st.rooms (voiceRoom channelId) ∧ T ≠ socket.id) ∧
    (∀ r, r ≠ voiceRoom channelId → (leave_voice st socket channelId).1.rooms r = st.rooms r) ∧
    (∀ T, (T, Event.user_left_voice socket.userId socket.id) ∈
          emits (leave_voice st socket channelId).2 ↔
        T ∈ (leave_voice st socket channelId).1.rooms (voiceRoom channelId)) ∧
    (∀ p ∈ emits (leave_voice st socket channelId).2,
      p.2 = Event.user_left_voice socket.userId socket.id ∧ p.1 ≠ socket.id) ∧
    (emits (leave_voice st socket channelId).2).Nodup := by
  have hroom : (leave_voice st socket channelId).1.rooms (voiceRoom channelId) =
      setDelete (st.rooms (voiceRoom channelId)) socket.id := by
    simp [leave_voice, Server.leave]
  have hown : st.rooms socket.id = [socket.id] := hwf.own_room socket hlive
  have heff : (leave_voice st socket channelId).2 =
      st.socketTo socket (voiceRoom channelId)
        (Event.user_left_voice socket.userId socket.id) := rfl
  refine ⟨rfl, ?_, ?_, ?_, ?_, ?_, ?_⟩
  · rw [hroom, mem_setDelete]
    exact fun h => h.2 rfl
  · intro T
    rw [hroom, mem_setDelete]
  · intro r hr
    simp [leave_voice, Server.leave, hr]
  · intro T
    rw [heff, mem_emits_socketTo, hown, hroom, mem_setDelete]
    constructor
    · rintro ⟨_, hmem, hne, _⟩
      exact ⟨hmem, by simpa using hne⟩
    · rintro ⟨hmem, hne⟩
      exact ⟨rfl, hmem, by simpa using hne, hwf.rooms_live _ _ hmem⟩
  · rintro ⟨T, ev⟩ hp
    rw [heff] at hp
    have h := (mem_emits_socketTo _ _ _ _ _ _).1 hp
    rw [hown] at h
    exact ⟨h.1, by simpa using h.2.2.1⟩
  · rw [heff]
    unfold Server.socketTo
    rw [emits_broadcast]
    refine List.Nodup.map ?_ (List.Nodup.filter _ (hwf.rooms_nodup _))
    intro a b hab
    exact (Prod.mk.inj hab).1

/-- C6, at a concrete input: `a` leaves voice channel 7 of `exServer`; `b`, the member
that remains, is notified. -/
theorem leave_voice_notifies_remaining_witness :
    exServer.WF ∧ (⟨"a", 1⟩ : Socket) ∈ exServer.sockets ∧
    (∀ T, (T, Event.user_left_voice 1 "a") ∈ emits (leave_voice exServer ⟨"a", 1⟩ "7").2 ↔
        T ∈ (leave_voice exServer ⟨"a", 1⟩ "7").1.rooms (voiceRoom "7")) :=
  ⟨exServer_WF, by decide,
    (leave_voice_notifies_remaining exServer ⟨"a", 1⟩ "7" exServer_WF (by decide)).2.2.2.2.1⟩

/-! ## Disconnect -/

/-- What `disconnect` does do: the closing connection is removed from every room and from
the live sockets, and no packet is emitted. -/
theorem disconnect_leaves_all_rooms (st : Server) (socket : Socket) :
    (∀ r, socket.id ∉ (disconnect st socket).1.rooms r) ∧
    (disconnect st socket).1.isLive socket.id = false ∧
    (disconnect st socket).2 = [] := by
  refine ⟨?_, ?_, rfl⟩
  · intro r
    simp [disconnect, Server.delAll, setDelete]
  · simp [disconnect, Server.delAll, Server.isLive]

/-- C7, the code at the failing input. In `exServer` connections `a` and `b` are in voice
room 7. When `a` disconnects it is removed from the room and `b` remains, but the
handler emits nothing: `b` gets no `user_left_voice` for `a`. -/
theorem disconnect_notifies_nobody :
    "a" ∈ exServer.rooms (voiceRoom "7") ∧
    "b" ∈ (disconnect exServer ⟨"a", 1⟩).1.rooms (voiceRoom "7") ∧
    "a" ∉ (disconnect exServer ⟨"a", 1⟩).1.rooms (voiceRoom "7") ∧
    (dispatch exStore 0 exServer "a" ClientEvent.disconnect).2 = [] ∧
    recipients (disconnect exServer ⟨"a", 1⟩).2 (Event.user_left_voice 1 "a") = [] := by
  decide

/-! ## Signaling relay -/

/-- What the relay handlers do for a well-formed state: the state is never changed and
the store is never called; a live target gets exactly one packet, carrying the payload
and the sender's connection id, and nobody else gets anything; a target that names no
room with members gets nothing emitted at all. -/
theorem relay_unicast (st : Server) (socket : Socket) (target : String) (payload : Payload)
    (hwf : st.WF) :
    ((webrtc_offer st socket target payload).1 = st ∧
      (webrtc_answer st socket target payload).1 = st ∧
      (webrtc_ice_candidate st socket target payload).1 = st) ∧
    (st.isLive target = true →
      (webrtc_offer st socket target payload).2 =
        [Effect.emit target (Event.webrtc_offer payload socket.id)] ∧
      (webrtc_answer st socket target payload).2 =
        [Effect.emit target (Event.webrtc_answer payload socket.id)] ∧
      (webrtc_ice_candidate st socket target payload).2 =
        [Effect.emit target (Event.webrtc_ice_candidate payload socket.id)]) ∧
    (st.rooms target = [] →
      (webrtc_offer st socket target payload).2 = [] ∧
      (webrtc_answer st socket target payload).2 = [] ∧
      (webrtc_ice_candidate st socket target payload).2 = []) := by
  refine ⟨⟨rfl, rfl, rfl⟩, ?_, ?_⟩
  · intro hl
    obtain ⟨s, hs, rfl⟩ := (isLive_iff st target).1 hl
    simp [webrtc_offer, webrtc_answer, webrtc_ice_candidate, Server.ioTo, Server.broadcast,
      hwf.own_room s hs, hl]
  · intro hr
    simp [webrtc_offer, webrtc_answer, webrtc_ice_candidate, Server.ioTo, Server.broadcast, hr]

/-- C8, the code at the failing input. No live connection of `exServer` has the id
`channel_7`, yet a `webrtc_offer` from `c` with that target is not dropped: it is
delivered to `a` and to `b`, the members of text room 7. -/
theorem webrtc_offer_room_target_not_dropped :
    exServer.isLive "channel_7" = false ∧
    (webrtc_offer exServer ⟨"c", 3⟩ "channel_7" "sdp").2 =
      [Effect.emit "a" (Event.webrtc_offer "sdp" "c"),
        Effect.emit "b" (Event.webrtc_offer "sdp" "c")] := by
  decide

/-- C9, the code at the failing input. A `webrtc_ice_candidate` from `c` whose target is
the name of voice room 7 reaches two connections, `a` and `b`; likewise for
`webrtc_answer`. -/
theorem webrtc_relay_fans_out_to_room :
    recipients (webrtc_ice_candidate exServer ⟨"c", 3⟩ (voiceRoom "7") "cand").2
      (Event.webrtc_ice_candidate "cand" "c") = ["a", "b"] ∧
    recipients (webrtc_answer exServer ⟨"c", 3⟩ (voiceRoom "7") "sdp").2
      (Event.webrtc_answer "sdp" "c") = ["a", "b"] := by
  decide

/-! ## Handshake -/

theorem find_none_of_not_live {st : Server} {id : String} (h : st.isLive id = false) :
    st.sockets.find? (fun s => s.id = id) = none := by
  rw [List.find?_eq_none]
  intro s hs
  have hn : ¬ st.isLive id = true := by simp [h]
  rw [isLive_iff] at hn
  simpa using fun heq => hn ⟨s, hs, heq⟩

theorem dispatch_not_live (db : Store) (now : Nat) {st : Server} {id : String}
    (h : st.isLive id = false) (ev : ClientEvent) : dispatch db now st id ev = (st, []) := by
  simp [dispatch, find_none_of_not_live h]

theorem handle_sockets_subset (db : Store) (now : Nat) (st : Server) (socket : Socket)
    (ev : ClientEvent) : ∀ x ∈ (handle db now st socket ev).1.sockets, x ∈ st.sockets := by
  intro x hx
  cases ev with
  | send_message data =>
    cases data with
    | none => exact hx
    | some d =>
      simp only [handle, on_send_message, send_message] at hx
      split at hx
      · exact hx
      · split at hx <;> exact hx
  | disconnect =>
    simp only [handle, disconnect, Server.delAll] at hx
    exact (List.mem_filter.1 hx).1
  | _ => exact hx

theorem dispatch_not_live_preserved (db : Store) (now : Nat) {st : Server} {id : String}
    (h : st.isLive id = false) (i : String) (ev : ClientEvent) :
    (dispatch db now st i ev).1.isLive id = false := by
  unfold dispatch
  split
  · exact h
  · rename_i socket _
    by_contra hc
    have hl : (handle db now st socket ev).1.isLive id = true := by simpa using hc
    obtain ⟨x, hx, hid⟩ := (isLive_iff _ _).1 hl
    have : st.isLive id = true :=
      (isLive_iff _ _).2 ⟨x, handle_sockets_subset db now st socket ev x hx, hid⟩
    simp [h] at this

theorem run_ignores_not_live (db : Store) (now : Nat) (id : String)
    (trace : List (String × ClientEvent)) :
    ∀ st : Server, st.isLive id = false →
      run db now st trace = run db now st (trace.filter (fun p => p.1 ≠ id)) := by
  induction trace with
  | nil => intro st _; rfl
  | cons p rest ih =>
    intro st h
    obtain ⟨i, ev⟩ := p
    by_cases hi : i = id
    · subst hi
      have hd := dispatch_not_live db now h ev
      simp only [run, hd, List.nil_append, ne_eq, not_true_eq_false, decide_False,
        Bool.false_eq_true, not_false_eq_true, List.filter_cons_of_neg]
      exact ih st h
    · have hk : ((i, ev) :: rest).filter (fun p => decide (p.1 ≠ id)) =
          (i, ev) :: rest.filter (fun p => decide (p.1 ≠ id)) := by
        simp [List.filter_cons, hi]
      rw [hk]
      simp only [run]
      rw [ih _ (dispatch_not_live_preserved db now h i ev)]

/-- C10. A handshake whose token is absent, is empty, or fails verification is refused
with "Authentication error" and leaves the server state as it was: `onlineUsers` is
unchanged and the connection is not among the live sockets, so no `userId` is attached
to it. No handler is registered for it: an event arriving on that connection id runs
nothing, and in any sequence of events the ones arriving on it can be left out without
changing the resulting state or what is emitted. -/
theorem handshake_refused (verify : String → Option Nat) (st : Server) (id : String)
    (token : Option String) (db : Store) (now : Nat)
    (hbad : ∀ t, token = some t → t ≠ "" → verify t = none)
    (hfresh : st.isLive id = false) :
    handshake verify st id token = (st, some "Authentication error") ∧
    (handshake verify st id token).1.onlineUsers = st.onlineUsers ∧
    (∀ s ∈ (handshake verify st id token).1.sockets, s.id ≠ id) ∧
    (∀ ev, dispatch db now (handshake verify st id token).1 id ev =
      ((handshake verify st id token).1, [])) ∧
    (∀ trace, run db now (handshake verify st id token).1 trace =
      run db now (handshake verify st id token).1 (trace.filter (fun p => p.1 ≠ id))) := by
  have hh : handshake verify st id token = (st, some "Authentication error") := by
    unfold handshake authMiddleware
    cases token with
    | none => rfl
    | some t =>
      by_cases ht : t = ""
      · simp [ht]
      · simp [ht, hbad t rfl ht]
  rw [hh]
  refine ⟨rfl, rfl, ?_, ?_, ?_⟩
  · intro s hs heq
    have : st.isLive id = true := (isLive_iff _ _).2 ⟨s, hs, heq⟩
    simp [hfresh] at this
  · exact fun ev => dispatch_not_live db now hfresh ev
  · exact fun trace => run_ignores_not_live db now id trace st hfresh

/-- C10, at a concrete input: connection `d` presents a token that does not verify. -/
theorem handshake_refused_witness :
    (∀ t, some "bad" = some t → t ≠ "" → (fun _ : String => (none : Option Nat)) t = none) ∧
    exServer.isLive "d" = false ∧
    handshake (fun _ => none) exServer "d" (some "bad") =
      (exServer, some "Authentication error") :=
  ⟨fun _ _ _ => rfl, by decide,
    (handshake_refused (fun _ => none) exServer "d" (some "bad") exStore 0
      (fun _ _ _ => rfl) (by decide)).1⟩

/-! ## Presence registry: single updates -/

theorem mapGet_mapSet_self (m : List (Nat × String)) (k : Nat) (v : String) :
    mapGet (mapSet m k v) k = some v := by
  induction m with
  | nil => simp [mapSet, mapGet]
  | cons e rest ih =>
    obtain ⟨k', v'⟩ := e
    unfold mapSet
    split
    · simp [mapGet]
    · rename_i hne
      simp only [mapGet, List.find?_cons, hne, decide_False] at ih ⊢
      exact ih

theorem mapGet_mapSet_ne (m : List (Nat × String)) (k : Nat) (v : String) (j : Nat)
    (h : j ≠ k) : mapGet (mapSet m k v) j = mapGet m j := by
  induction m with
  | nil => simp [mapSet, mapGet, Ne.symm h]
  | cons e rest ih =>
    obtain ⟨k', v'⟩ := e
    unfold mapSet
    split
    · rename_i heq
      subst heq
      simp [mapGet, List.find?_cons, Ne.symm h]
    · by_cases hj : k' = j
      · simp [mapGet, List.find?_cons, hj]
      · simp only [mapGet, List.find?_cons, hj, decide_False] at ih ⊢
        exact ih

theorem mapGet_mapDelete_self (m : List (Nat × String)) (k : Nat) :
    mapGet (mapDelete m k) k = none := by
  simp only [mapGet, mapDelete, Option.map_eq_none', List.find?_eq_none, List.mem_filter]
  rintro ⟨a, b⟩ ⟨_, hne⟩
  simpa using hne

theorem mapGet_mapDelete_ne (m : List (Nat × String)) (k j : Nat) (h : j ≠ k) :
    mapGet (mapDelete m k) j = mapGet m j := by
  induction m with
  | nil => rfl
  | cons e rest ih =>
    obtain ⟨k', v'⟩ := e
    by_cases hk : k' = k
    · subst hk
      have hd : mapDelete ((k', v') :: rest) k' = mapDelete rest k' := by
        simp [mapDelete]
      rw [hd, ih]
      simp [mapGet, List.find?_cons, Ne.symm h]
    · have hd : mapDelete ((k', v') :: rest) k = (k', v') :: mapDelete rest k := by
        simp [mapDelete, hk]
      rw [hd]
      by_cases hj : k' = j
      · simp [mapGet, List.find?_cons, hj]
      · simp only [mapGet, List.find?_cons, hj, decide_False] at ih ⊢
        exact ih

/-- C11. After a successful authentication of connection `c` for user `u` the registry
maps `u` to `c`, whatever it mapped `u` to before, and every other user's entry is
unchanged. After the disconnect of a connection of user `socket.userId` the registry has
no entry for that user and every other user's entry is unchanged. -/
theorem presence_registry_updates (verify : String → Option Nat) (st : Server) (c : String)
    (token : String) (u : Nat) (socket : Socket)
    (htoken : token ≠ "") (hverify : verify token = some u) :
    (handshake verify st c (some token)).2 = none ∧
    mapGet (handshake verify st c (some token)).1.onlineUsers u = some c ∧
    (∀ v, v ≠ u →
      mapGet (handshake verify st c (some token)).1.onlineUsers v = mapGet st.onlineUsers v) ∧
    mapGet (disconnect st socket).1.onlineUsers socket.userId = none ∧
    (∀ v, v ≠ socket.userId →
      mapGet (disconnect st socket).1.onlineUsers v = mapGet st.onlineUsers v) := by
  have hh : handshake verify st c (some token) =
      (onConnection st { id := c, userId := u }, none) := by
    simp [handshake, authMiddleware, htoken, hverify]
  rw [hh]
  refine ⟨rfl, ?_, ?_, ?_, ?_⟩
  · exact mapGet_mapSet_self _ _ _
  · intro v hv
    exact mapGet_mapSet_ne _ _ _ _ hv
  · exact mapGet_mapDelete_self _ _
  · intro v hv
    exact mapGet_mapDelete_ne _ _ _ hv

/-- C11, at a concrete input: user 1, already registered with connection `a`, opens
connection `d`; the registry then maps user 1 to `d`. -/
theorem presence_registry_updates_witness :
    "tok" ≠ "" ∧ (fun _ : String => some 1) "tok" = some 1 ∧
    mapGet exServer.onlineUsers 1 = some "a" ∧
    mapGet (handshake (fun _ => some 1) exServer "d" (some "tok")).1.onlineUsers 1 =
      some "d" :=
  ⟨by decide, rfl, by decide,
    (presence_registry_updates (fun _ => some 1) exServer "d" "tok" 1 ⟨"a", 1⟩
      (by decide) rfl).2.1⟩

/-! ## The broadcast record -/

theorem emits_send_message_success (db : Store) (now : Nat) (st : Server) (socket : Socket)
    (channelId : String) (message : Option String) (insertId : Nat) (username : String)
    (others : List String)
    (hins : db.insert channelId socket.userId (bodyOrDefault message) = some insertId)
    (husr : db.usernames socket.userId = some (username :: others)) :
    emits (send_message db now st socket channelId message).2 =
      emits (st.ioTo (channelRoom channelId)
        (Event.new_message insertId channelId socket.userId username message now)) := by
  have hs : (send_message db now st socket channelId message).2 =
      [Effect.insertMessage channelId socket.userId (bodyOrDefault message),
        Effect.selectUsername socket.userId] ++
      st.ioTo (channelRoom channelId)
        (Event.new_message insertId channelId socket.userId username message now) := by
    simp [send_message, hins, husr]
  rw [hs, emits_append]
  rfl


/-- C12. On a successful `send_message` every packet emitted is the same `new_message`
record: its `id` is the `insertId` the store returned, its `channel_id` the submitted
`channelId`, its `user_id` the sender's `userId`, its `username` the one of the first row
of the store's lookup for that user, and its `message` the submitted body. -/
theorem send_message_record (db : Store) (now : Nat) (st : Server) (socket : Socket)
    (channelId : String) (message : Option String) (insertId : Nat) (username : String)
    (others : List String)
    (hins : db.insert channelId socket.userId (bodyOrDefault message) = some insertId)
    (husr : db.usernames socket.userId = some (username :: others)) :
    (∀ p ∈ emits (send_message db now st socket channelId message).2,
      p.2 = Event.new_message insertId channelId socket.userId username message now) ∧
    (∀ p ∈ emits (send_message db now st socket channelId message).2,
      ∀ q ∈ emits (send_message db now st socket channelId message).2, p.2 = q.2) ∧
    (∀ p ∈ emits (send_message db now st socket channelId message).2,
      p.2.userIdField = some socket.userId ∧ p.2.messageField = some message) := by
  have h : ∀ p ∈ emits (send_message db now st socket channelId message).2,
      p.2 = Event.new_message insertId channelId socket.userId username message now := by
    rintro ⟨t, e⟩ hp
    rw [emits_send_message_success db now st socket channelId message insertId username
      others hins husr] at hp
    exact ((mem_emits_ioTo _ _ _ _ _).1 hp).1
  refine ⟨h, ?_, ?_⟩
  · intro p hp q hq
    rw [h p hp, h q hq]
  · intro p hp
    rw [h p hp]
    exact ⟨rfl, rfl⟩

/-- C12, at a concrete input: `a` sends "hi" to channel 7 of `exServer`. -/
theorem send_message_record_witness :
    exStore.insert "7" 1 (bodyOrDefault (some "hi")) = some 10 ∧
    exStore.usernames 1 = some ["alice"] ∧
    emits (send_message exStore 0 exServer ⟨"a", 1⟩ "7" (some "hi")).2 ≠ [] ∧
    (∀ p ∈ emits (send_message exStore 0 exServer ⟨"a", 1⟩ "7" (some "hi")).2,
      p.2 = Event.new_message 10 "7" 1 "alice" (some "hi") 0) :=
  ⟨rfl, rfl, by decide,
    (send_message_record exStore 0 exServer ⟨"a", 1⟩ "7" (some "hi") 10 "alice" []
      rfl rfl).1⟩

/-- For a body that is a non-empty string, the body sent to the store is the body that is
broadcast. -/
theorem bodyOrDefault_of_nonempty (m : String) (h : m ≠ "") : bodyOrDefault (some m) = m := by
  simp [bodyOrDefault, h]

/-- C13, the code at the failing input. `a` sends the empty string to channel 7. The
insert sent to the store carries the body "en", the `new_message` that is broadcast
carries the empty string. -/
theorem send_message_empty_body_differs :
    (send_message exStore 0 exServer ⟨"a", 1⟩ "7" (some "")).2 =
      [Effect.insertMessage "7" 1 "en", Effect.selectUsername 1,
        Effect.emit "a" (Event.new_message 10 "7" 1 "alice" (some "") 0),
        Effect.emit "b" (Event.new_message 10 "7" 1 "alice" (some "") 0)] ∧
    (send_message exStore 0 exServer ⟨"a", 1⟩ "7" none).2 =
      [Effect.insertMessage "7" 1 "en", Effect.selectUsername 1,
        Effect.emit "a" (Event.new_message 10 "7" 1 "alice" none 0),
        Effect.emit "b" (Event.new_message 10 "7" 1 "alice" none 0)] := by
  decide

/-! ## Sender identity -/

/-- C19. Whatever payload a connection sends, every packet the server emits while handling
it carries the sender's own identity: a user id field, when present, is the `userId` the
middleware attached to the socket, and a connection id field, when present, is the
socket's id. Two payloads from the same connection are therefore stamped alike. -/
theorem stamped_identity (db : Store) (now : Nat) (st : Server) (socket : Socket)
    (ev : ClientEvent) :
    ∀ p ∈ emits (handle db now st socket ev).2,
      (∀ u, p.2.userIdField = some u → u = socket.userId) ∧
      (∀ s, p.2.socketIdField = some s → s = socket.id) := by
  rintro ⟨t, e⟩ hp
  have key : ∀ (room : String) (except : List String) (e0 : Event),
      (t, e) ∈ emits (st.broadcast room except e0) → e = e0 :=
    fun room except e0 h => ((mem_emits_broadcast st room except e0 t e).1 h).1
  cases ev with
  | join_channel c => simp [handle, join_channel, emits] at hp
  | leave_channel c => simp [handle, leave_channel, emits] at hp
  | send_message data =>
    cases data with
    | none =>
      simp only [handle, on_send_message, emits, List.mem_singleton, Prod.mk.injEq] at hp
      obtain ⟨_, rfl⟩ := hp
      simp [sendFailed, Event.userIdField, Event.socketIdField]
    | some d =>
      simp only [handle, on_send_message, send_message] at hp
      split at hp
      · simp only [emits, List.mem_singleton, Prod.mk.injEq] at hp
        obtain ⟨_, rfl⟩ := hp
        simp [sendFailed, Event.userIdField, Event.socketIdField]
      · split at hp
        · simp only [emits, List.mem_singleton, Prod.mk.injEq] at hp
          obtain ⟨_, rfl⟩ := hp
          simp [sendFailed, Event.userIdField, Event.socketIdField]
        · simp only [emits, List.mem_singleton, Prod.mk.injEq] at hp
          obtain ⟨_, rfl⟩ := hp
          simp [sendFailed, Event.userIdField, Event.socketIdField]
        · rw [emits_append] at hp
          simp only [emits, List.nil_append] at hp
          rw [key _ _ _ hp]
          simp [Event.userIdField, Event.socketIdField]
  | typing c u =>
    rw [key _ _ _ hp]
    simp [Event.userIdField, Event.socketIdField]
  | join_voice c =>
    have h := ((mem_emits_broadcast (st.join socket.id (voiceRoom c)) _ _ _ t e).1 hp).1
    rw [h]
    simp [Event.userIdField, Event.socketIdField]
  | leave_voice c =>
    rw [key _ _ _ hp]
    simp [Event.userIdField, Event.socketIdField]
  | webrtc_offer tg pl =>
    rw [key _ _ _ hp]
    simp [Event.userIdField, Event.socketIdField]
  | webrtc_answer tg pl =>
    rw [key _ _ _ hp]
    simp [Event.userIdField, Event.socketIdField]
  | webrtc_ice_candidate tg pl =>
    rw [key _ _ _ hp]
    simp [Event.userIdField, Event.socketIdField]
  | disconnect => simp [handle, disconnect, emits] at hp

/-- C19, at a concrete input: the `user_joined_voice` that `a` gets when `c` joins voice
channel 7 carries user 3 and connection `c`. -/
theorem stamped_identity_witness :
    (("a", Event.user_joined_voice 3 "c") : String × Event) ∈
      emits (handle exStore 0 exServer ⟨"c", 3⟩ (ClientEvent.join_voice "7")).2 ∧
    (∀ u, (Event.user_joined_voice 3 "c").userIdField = some u → u = 3) ∧
    (∀ s, (Event.user_joined_voice 3 "c").socketIdField = some s → s = "c") :=
  ⟨by decide,
    stamped_identity exStore 0 exServer ⟨"c", 3⟩ (ClientEvent.join_voice "7")
      ("a", Event.user_joined_voice 3 "c") (by decide)⟩

/-! ## Presence registry: reachable states -/

theorem mem_of_mapGet {m : List (Nat × String)} {k : Nat} {v : String}
    (h : mapGet m k = some v) : (k, v) ∈ m := by
  simp only [mapGet, Option.map_eq_some'] at h
  obtain ⟨⟨k', v'⟩, hf, hv⟩ := h
  have hp := List.find?_some hf
  have hm := List.mem_of_find?_eq_some hf
  simp only [decide_eq_true_eq] at hp
  simp only at hv
  subst hp
  subst hv
  exact hm

theorem mem_mapSet {m : List (Nat × String)} {k : Nat} {v : String} {e : Nat × String}
    (h : e ∈ mapSet m k v) : e = (k, v) ∨ e ∈ m := by
  induction m with
  | nil =>
    simp only [mapSet, List.mem_singleton] at h
    exact Or.inl h
  | cons a rest ih =>
    obtain ⟨k', v'⟩ := a
    unfold mapSet at h
    split at h
    · rcases List.mem_cons.1 h with h | h
      · exact Or.inl h
      · exact Or.inr (List.mem_cons_of_mem _ h)
    · rcases List.mem_cons.1 h with h | h
      · exact Or.inr (h ▸ List.mem_cons_self _ _)
      · rcases ih h with h | h
        · exact Or.inl h
        · exact Or.inr (List.mem_cons_of_mem _ h)

theorem socket_eq_of_id {l : List Socket} (hnd : (l.map Socket.id).Nodup) {s t : Socket}
    (hs : s ∈ l) (ht : t ∈ l) (h : s.id = t.id) : s = t :=
  List.inj_on_of_nodup_map hnd hs ht h

theorem socket_eq_of_userId {l : List Socket} (hnd : (l.map Socket.userId).Nodup)
    {s t : Socket} (hs : s ∈ l) (ht : t ∈ l) (h : s.userId = t.userId) : s = t :=
  List.inj_on_of_nodup_map hnd hs ht h

theorem find_socket {st : Server} {id : String} {socket : Socket}
    (h : st.sockets.find? (fun s => s.id = id) = some socket) :
    socket ∈ st.sockets ∧ socket.id = id :=
  ⟨List.mem_of_find?_eq_some h, by simpa using List.find?_some h⟩

theorem entriesLive_step {st : Server} (h : EntriesLive st) (step : Session) :
    EntriesLive (sessionStep st step) := by
  obtain ⟨hnd, hent⟩ := h
  cases step with
  | connect id userId =>
    simp only [sessionStep]
    split
    · exact ⟨hnd, hent⟩
    · rename_i hlive
      refine ⟨?_, ?_⟩
      · simp only [onConnection, Server.join, List.map_append, List.map_cons, List.map_nil]
        refine List.Nodup.append hnd (List.nodup_singleton _) ?_
        intro x hx hx'
        rw [List.mem_singleton] at hx'
        subst hx'
        obtain ⟨t, ht, hid⟩ := List.mem_map.1 hx
        exact hlive ((isLive_iff st _).2 ⟨t, ht, hid⟩)
      · intro e he
        simp only [onConnection, Server.join] at he ⊢
        rcases mem_mapSet he with rfl | he
        · simp
        · exact List.mem_append_left _ (hent e he)
  | disconnect id =>
    simp only [sessionStep]
    split
    · exact ⟨hnd, hent⟩
    · rename_i socket hfind
      obtain ⟨hmem, _⟩ := find_socket hfind
      refine ⟨?_, ?_⟩
      · simp only [disconnect, Server.delAll]
        exact hnd.sublist (List.Sublist.map _ (List.filter_sublist _))
      · intro e he
        simp only [disconnect, Server.delAll, mapDelete] at he ⊢
        obtain ⟨hin, hne⟩ := List.mem_filter.1 he
        have hne' : e.1 ≠ socket.userId := by simpa using hne
        refine List.mem_filter.2 ⟨hent e hin, ?_⟩
        have : (⟨e.2, e.1⟩ : Socket).id ≠ socket.id := by
          intro heq
          have := socket_eq_of_id hnd (hent e hin) hmem heq
          exact hne' (congrArg Socket.userId this)
        simpa using this

theorem everyLiveListed_step {st : Server}
    (h : EveryLiveListed st) (step : Session)
    (hsingle : singleSession st [step] = true) :
    EveryLiveListed (sessionStep st step) := by
  obtain ⟨hnd, hall⟩ := h
  cases step with
  | connect id userId =>
    simp only [singleSession, Bool.and_true, Bool.not_eq_true', List.any_eq_false,
      decide_eq_true_eq] at hsingle
    simp only [sessionStep]
    split
    · exact ⟨hnd, hall⟩
    · refine ⟨?_, ?_⟩
      · simp only [onConnection, Server.join, List.map_append, List.map_cons, List.map_nil]
        refine List.Nodup.append hnd (List.nodup_singleton _) ?_
        intro x hx hx'
        rw [List.mem_singleton] at hx'
        subst hx'
        obtain ⟨t, ht, hu⟩ := List.mem_map.1 hx
        exact hsingle t ht hu
      · intro s hs
        simp only [onConnection, Server.join] at hs ⊢
        rcases List.mem_append.1 hs with hs | hs
        · rw [mapGet_mapSet_ne _ _ _ _ (hsingle s hs)]
          exact hall s hs
        · rw [List.mem_singleton] at hs
          subst hs
          exact mapGet_mapSet_self _ _ _
  | disconnect id =>
    simp only [sessionStep]
    split
    · exact ⟨hnd, hall⟩
    · rename_i socket hfind
      obtain ⟨hmem, _⟩ := find_socket hfind
      refine ⟨?_, ?_⟩
      · simp only [disconnect, Server.delAll]
        exact hnd.sublist (List.Sublist.map _ (List.filter_sublist _))
      · intro s hs
        simp only [disconnect, Server.delAll] at hs ⊢
        obtain ⟨hin, hne⟩ := List.mem_filter.1 hs
        have hne' : s.id ≠ socket.id := by simpa using hne
        have hu : s.userId ≠ socket.userId := by
          intro heq
          exact hne' (congrArg Socket.id (socket_eq_of_userId hnd hin hmem heq))
        rw [mapGet_mapDelete_ne _ _ _ hu]
        exact hall s hin

theorem entriesLive_run (steps : List Session) :
    ∀ st : Server, EntriesLive st → EntriesLive (sessionRun st steps) := by
  induction steps with
  | nil => exact fun _ h => h
  | cons step rest ih =>
    intro st h
    exact ih _ (entriesLive_step h step)

theorem singleSession_cons {st : Server} {step : Session} {rest : List Session}
    (h : singleSession st (step :: rest) = true) :
    singleSession st [step] = true ∧ singleSession (sessionStep st step) rest = true := by
  cases step with
  | connect id userId =>
    simp only [singleSession, Bool.and_eq_true, Bool.and_true] at h ⊢
    exact h
  | disconnect id =>
    simp only [singleSession] at h ⊢
    exact ⟨trivial, h⟩

theorem everyLiveListed_run (steps : List Session) :
    ∀ st : Server, EntriesLive st → EveryLiveListed st → singleSession st steps = true →
      EveryLiveListed (sessionRun st steps) := by
  induction steps with
  | nil => exact fun _ _ h _ => h
  | cons step rest ih =>
    intro st he h hs
    obtain ⟨h1, h2⟩ := singleSession_cons hs
    exact ih _ (entriesLive_step he step) (everyLiveListed_step h step h1) h2

/-- C20, as stated, fails: user 1 opens connections `c1` and `c2`, then `c1` disconnects.
User 1 still has the live connection `c2`, but the registry has no entry for user 1. -/
theorem presence_entry_lost :
    (⟨"c2", 1⟩ : Socket) ∈
      (sessionRun Server.init
        [Session.connect "c1" 1, Session.connect "c2" 1, Session.disconnect "c1"]).sockets ∧
    mapGet (sessionRun Server.init
        [Session.connect "c1" 1, Session.connect "c2" 1,
          Session.disconnect "c1"]).onlineUsers 1 = none := by
  decide

/-- C20, amended. In every state reached from the initial one by connects and disconnects,
a user's entry in the registry is the id of a live connection of that user, so a user with
an entry has a live connection. The converse, that every user with a live connection has
an entry (which then is that connection), holds for the sequences in which no user opens a
connection while having a live one. -/
theorem presence_registry_invariant (steps : List Session) :
    (∀ u c, mapGet (sessionRun Server.init steps).onlineUsers u = some c →
      (⟨c, u⟩ : Socket) ∈ (sessionRun Server.init steps).sockets) ∧
    (singleSession Server.init steps = true →
      ∀ s ∈ (sessionRun Server.init steps).sockets,
        mapGet (sessionRun Server.init steps).onlineUsers s.userId = some s.id) := by
  have h0 : EntriesLive Server.init :=
    ⟨List.nodup_nil, by intro e he; simp [Server.init] at he⟩
  have h1 : EveryLiveListed Server.init :=
    ⟨List.nodup_nil, by intro s hs; simp [Server.init] at hs⟩
  refine ⟨?_, ?_⟩
  · intro u c hget
    exact (entriesLive_run steps _ h0).2 (u, c) (mem_of_mapGet hget)
  · intro hs
    exact (everyLiveListed_run steps _ h0 h1 hs).2

/-- C20, amended, at a concrete input: users 1 and 2 connect once each and user 1
disconnects; user 2, who has a live connection, is listed with it. -/
theorem presence_registry_invariant_witness :
    singleSession Server.init
      [Session.connect "c1" 1, Session.connect "c2" 2, Session.disconnect "c1"] = true ∧
    (∀ s ∈ (sessionRun Server.init
        [Session.connect "c1" 1, Session.connect "c2" 2, Session.disconnect "c1"]).sockets,
      mapGet (sessionRun Server.init
        [Session.connect "c1" 1, Session.connect "c2" 2,
          Session.disconnect "c1"]).onlineUsers s.userId = some s.id) :=
  ⟨by decide,
    (presence_registry_invariant
      [Session.connect "c1" 1, Session.connect "c2" 2, Session.disconnect "c1"]).2
      (by decide)⟩

/-! ## The client: basic facts -/

theorem peersGet_peersSet_self (m : List (String × Nat)) (k : String) (v : Nat) :
    peersGet (peersSet m k v) k = some v := by
  induction m with
  | nil => simp [peersSet, peersGet]
  | cons e rest ih =>
    obtain ⟨k', v'⟩ := e
    unfold peersSet
    split
    · simp [peersGet]
    · rename_i hne
      simp only [peersGet, List.find?_cons, hne, decide_False] at ih ⊢
      exact ih

theorem peersGet_peersDelete_self (m : List (String × Nat)) (k : String) :
    peersGet (peersDelete m k) k = none := by
  simp only [peersGet, peersDelete, Option.map_eq_none', List.find?_eq_none, List.mem_filter]
  rintro ⟨a, b⟩ ⟨_, hne⟩
  simpa using hne

theorem peersGet_peersDelete_ne (m : List (String × Nat)) (k j : String) (h : j ≠ k) :
    peersGet (peersDelete m k) j = peersGet m j := by
  induction m with
  | nil => rfl
  | cons e rest ih =>
    obtain ⟨k', v'⟩ := e
    by_cases hk : k' = k
    · subst hk
      have hd : peersDelete ((k', v') :: rest) k' = peersDelete rest k' := by
        simp [peersDelete]
      rw [hd, ih]
      simp [peersGet, List.find?_cons, Ne.symm h]
    · have hd : peersDelete ((k', v') :: rest) k = (k', v') :: peersDelete rest k := by
        simp [peersDelete, hk]
      rw [hd]
      by_cases hj : k' = j
      · simp [peersGet, List.find?_cons, hj]
      · simp only [peersGet, List.find?_cons, hj, decide_False] at ih ⊢
        exact ih

theorem length_updateAt (pcs : List PeerConnection) (i : Nat)
    (f : PeerConnection → PeerConnection) : (updateAt pcs i f).length = pcs.length := by
  induction pcs generalizing i with
  | nil => rfl
  | cons pc rest ih =>
    cases i with
    | zero => rfl
    | succ i => simp [updateAt, ih]

theorem get?_updateAt (pcs : List PeerConnection) (i j : Nat)
    (f : PeerConnection → PeerConnection) :
    (updateAt pcs i f).get? j = if j = i then (pcs.get? j).map f else pcs.get? j := by
  induction pcs generalizing i j with
  | nil => simp [updateAt]
  | cons pc rest ih =>
    cases i with
    | zero =>
      cases j with
      | zero => simp [updateAt]
      | succ j => simp [updateAt]
    | succ i =>
      cases j with
      | zero => simp [updateAt]
      | succ j => simpa [updateAt] using ih i j

theorem closed_foldl_closeAt (peers : List (String × Nat)) :
    ∀ (pcs : List PeerConnection) (j : Nat),
      ((∃ e ∈ peers, e.2 = j) ∨ ∀ pc, pcs.get? j = some pc → pc.closed = true) →
      ∀ pc, (peers.foldl (fun pcs e => closeAt pcs e.2) pcs).get? j = some pc →
        pc.closed = true := by
  induction peers with
  | nil =>
    intro pcs j h pc hpc
    rcases h with ⟨e, he, _⟩ | h
    · simp at he
    · exact h pc hpc
  | cons e rest ih =>
    intro pcs j h
    simp only [List.foldl_cons]
    apply ih
    by_cases hj : j = e.2
    · right
      intro pc hpc
      rw [closeAt, get?_updateAt, if_pos hj] at hpc
      obtain ⟨pc0, _, rfl⟩ := Option.map_eq_some'.1 hpc
      rfl
    · rcases h with ⟨e', he', rfl⟩ | h
      · rcases List.mem_cons.1 he' with rfl | hin
        · exact absurd rfl hj
        · exact Or.inl ⟨e', hin, rfl⟩
      · right
        intro pc hpc
        rw [closeAt, get?_updateAt, if_neg hj] at hpc
        exact h pc hpc

theorem length_foldl_closeAt (peers : List (String × Nat)) :
    ∀ pcs : List PeerConnection,
      (peers.foldl (fun pcs e => closeAt pcs e.2) pcs).length = pcs.length := by
  induction peers with
  | nil => exact fun _ => rfl
  | cons e rest ih =>
    intro pcs
    simp only [List.foldl_cons]
    rw [ih, closeAt, length_updateAt]

/-! ## The client: participant joined -/

/-- C15, as stated, fails: the component holds its local stream, the browser rejects
`createOffer`, and handling `user_joined_voice` emits no `webrtc_offer`. -/
theorem handleUserJoined_offer_rejected :
    exClient.localStream = some [0, 1] ∧
    emitted (handleUserJoined failingRtc exClient 3 "c").2 = [] := by
  decide

/-- C15, amended. When the local stream is held, handling `user_joined_voice` constructs
a peer connection for `socketId` carrying every local track, stores it in the table under
`socketId`, and, if `createOffer` resolves and `setLocalDescription` accepts the offer,
emits exactly one event, a `webrtc_offer` with that offer whose target is `socketId`; if
either call fails nothing is emitted. When the local stream is not held the event changes
nothing and emits nothing. -/
theorem handleUserJoined_spec (rtc : Rtc) (cl : Client) (userId : Nat) (socketId : String) :
    (∀ tracks, cl.localStream = some tracks →
      peersGet (handleUserJoined rtc cl userId socketId).1.peers socketId =
        some cl.pcs.length ∧
      (∃ pc, (handleUserJoined rtc cl userId socketId).1.pcs = cl.pcs ++ [pc] ∧
        pc.socketId = socketId ∧ pc.tracks = tracks ∧ pc.closed = false) ∧
      (∀ offer, rtc.createOffer { newPeerConnection socketId with tracks := tracks } =
          some offer →
        rtc.setLocalDescription { newPeerConnection socketId with tracks := tracks } offer =
          true →
        (handleUserJoined rtc cl userId socketId).2 =
          [Action.emit (ClientEvent.webrtc_offer socketId offer)]) ∧
      (rtc.createOffer { newPeerConnection socketId with tracks := tracks } = none →
        (handleUserJoined rtc cl userId socketId).2 = []) ∧
      (∀ offer, rtc.createOffer { newPeerConnection socketId with tracks := tracks } =
          some offer →
        rtc.setLocalDescription { newPeerConnection socketId with tracks := tracks } offer =
          false →
        (handleUserJoined rtc cl userId socketId).2 = [])) ∧
    (cl.localStream = none → handleUserJoined rtc cl userId socketId = (cl, [])) := by
  refine ⟨?_, ?_⟩
  · intro tracks hs
    unfold handleUserJoined
    rw [hs]
    simp only
    cases hco : rtc.createOffer { newPeerConnection socketId with tracks := tracks } with
    | none =>
      refine ⟨peersGet_peersSet_self _ _ _, ⟨_, rfl, rfl, rfl, rfl⟩, ?_, ?_, ?_⟩
      · intro offer h; cases h
      · intro _; rfl
      · intro offer h; cases h
    | some offer =>
      by_cases hsl :
          rtc.setLocalDescription { newPeerConnection socketId with tracks := tracks } offer
            = true
      · simp only [hsl, if_true]
        refine ⟨peersGet_peersSet_self _ _ _, ⟨_, rfl, rfl, rfl, rfl⟩, ?_, ?_, ?_⟩
        · intro offer' h _
          cases h
          rfl
        · intro h; cases h
        · intro offer' h h'
          cases h
          rw [hsl] at h'
          cases h'
      · simp only [hsl, if_false]
        refine ⟨peersGet_peersSet_self _ _ _, ⟨_, rfl, rfl, rfl, rfl⟩, ?_, ?_, ?_⟩
        · intro offer' h h'
          cases h
          exact absurd h' hsl
        · intro h; cases h
        · intro _ _ _; rfl
  · intro hs
    unfold handleUserJoined
    rw [hs]

/-- C15, amended, at a concrete input: `exClient` learns that user 3 joined on connection
`c`, and every browser call succeeds. -/
theorem handleUserJoined_spec_witness :
    exClient.localStream = some [0, 1] ∧
    peersGet (handleUserJoined okRtc exClient 3 "c").1.peers "c" = some 1 ∧
    (handleUserJoined okRtc exClient 3 "c").2 =
      [Action.emit (ClientEvent.webrtc_offer "c" "offer for c")] :=
  ⟨rfl,
    ((handleUserJoined_spec okRtc exClient 3 "c").1 [0, 1] rfl).1,
    ((handleUserJoined_spec okRtc exClient 3 "c").1 [0, 1] rfl).2.2.1 "offer for c"
      (by decide) rfl⟩

/-! ## The client: offer received -/

/-- C16, as stated, fails: the component holds its local stream and has no peer connection
for `c`; the browser refuses the received offer, and no `webrtc_answer` is emitted. -/
theorem handleOffer_offer_refused :
    exClient.localStream = some [0, 1] ∧ peersGet exClient.peers "c" = none ∧
    emitted (handleOffer failingRtc exClient "not an offer" "c").2 = [] := by
  decide

/-- C16, amended. When the local stream is held, handling `webrtc_offer` constructs a peer
connection for `fromSocketId` carrying every local track and stores it in the table under
`fromSocketId`. If `setRemoteDescription` accepts the offer, `createAnswer` resolves and
`setLocalDescription` accepts the answer, the stored connection has the offer as its
remote description and exactly one event is emitted, a `webrtc_answer` with that answer
whose target is `fromSocketId`. In the other cases nothing is emitted. -/
theorem handleOffer_spec (rtc : Rtc) (cl : Client) (offer : Payload) (fromSocketId : String)
    (tracks : List Nat) (hheld : cl.localStream = some tracks) :
    peersGet (handleOffer rtc cl offer fromSocketId).1.peers fromSocketId =
      some cl.pcs.length ∧
    (∃ pc, (handleOffer rtc cl offer fromSocketId).1.pcs = cl.pcs ++ [pc] ∧
      pc.socketId = fromSocketId ∧ pc.tracks = tracks ∧ pc.closed = false ∧
      (rtc.setRemoteDescription { newPeerConnection fromSocketId with tracks := tracks }
          offer = true → pc.remoteDescription = some offer)) ∧
    (∀ answer,
      rtc.setRemoteDescription { newPeerConnection fromSocketId with tracks := tracks }
        offer = true →
      rtc.createAnswer { newPeerConnection fromSocketId with
        tracks := tracks, remoteDescription := some offer } = some answer →
      rtc.setLocalDescription { newPeerConnection fromSocketId with
        tracks := tracks, remoteDescription := some offer } answer = true →
      (handleOffer rtc cl offer fromSocketId).2 =
        [Action.emit (ClientEvent.webrtc_answer fromSocketId answer)]) ∧
    ((rtc.setRemoteDescription { newPeerConnection fromSocketId with tracks := tracks }
          offer = false ∨
        rtc.createAnswer { newPeerConnection fromSocketId with
          tracks := tracks, remoteDescription := some offer } = none ∨
        ∃ answer, rtc.createAnswer { newPeerConnection fromSocketId with
            tracks := tracks, remoteDescription := some offer } = some answer ∧
          rtc.setLocalDescription { newPeerConnection fromSocketId with
            tracks := tracks, remoteDescription := some offer } answer = false) →
      (handleOffer rtc cl offer fromSocketId).2 = []) := by
  unfold handleOffer
  rw [hheld]
  simp only
  by_cases hsr :
      rtc.setRemoteDescription { newPeerConnection fromSocketId with tracks := tracks } offer
        = true
  · simp only [hsr, if_true]
    cases hca : rtc.createAnswer { newPeerConnection fromSocketId with
        tracks := tracks, remoteDescription := some offer } with
    | none =>
      refine ⟨peersGet_peersSet_self _ _ _, ⟨_, rfl, rfl, rfl, rfl, fun _ => rfl⟩, ?_, ?_⟩
      · intro answer _ h; cases h
      · intro _; rfl
    | some answer =>
      by_cases hsl : rtc.setLocalDescription { newPeerConnection fromSocketId with
          tracks := tracks, remoteDescription := some offer } answer = true
      · simp only [hsl, if_true]
        refine ⟨peersGet_peersSet_self _ _ _, ⟨_, rfl, rfl, rfl, rfl, fun _ => rfl⟩, ?_, ?_⟩
        · intro answer' _ h _
          cases h
          rfl
        · rintro (h | h | ⟨answer', h, h'⟩)
          · cases h
          · cases h
          · cases h
            rw [hsl] at h'
            cases h'
      · simp only [hsl, if_false]
        refine ⟨peersGet_peersSet_self _ _ _, ⟨_, rfl, rfl, rfl, rfl, fun _ => rfl⟩, ?_, ?_⟩
        · intro answer' _ h h'
          cases h
          exact absurd h' hsl
        · intro _; rfl
  · simp only [hsr, if_false]
    refine ⟨peersGet_peersSet_self _ _ _, ⟨_, rfl, rfl, rfl, rfl, ?_⟩, ?_, ?_⟩
    · intro h; cases h
    · intro answer h; cases h
    · intro _; rfl

/-- C16, amended, at a concrete input: `exClient` receives an offer from `c`, for which it
has no peer connection, and every browser call succeeds. -/
theorem handleOffer_spec_witness :
    exClient.localStream = some [0, 1] ∧ peersGet exClient.peers "c" = none ∧
    peersGet (handleOffer okRtc exClient "sdp" "c").1.peers "c" = some 1 ∧
    (handleOffer okRtc exClient "sdp" "c").2 =
      [Action.emit (ClientEvent.webrtc_answer "c" "answer for c")] :=
  ⟨rfl, by decide,
    (handleOffer_spec okRtc exClient "sdp" "c" [0, 1] rfl).1,
    (handleOffer_spec okRtc exClient "sdp" "c" [0, 1] rfl).2.2.1 "answer for c" rfl
      (by decide) rfl⟩

/-! ## The client: leaving the call -/

/-- What one call of `leaveCall` does, with the `socket` prop set or not. -/
theorem leaveCall_spec (hasSocket : Bool) (channelId : String) (cl : Client) :
    (leaveCall hasSocket channelId cl).1.peers = [] ∧
    (leaveCall hasSocket channelId cl).1.pcs.length = cl.pcs.length ∧
    (∀ e ∈ cl.peers, ∀ pc, (leaveCall hasSocket channelId cl).1.pcs.get? e.2 = some pc →
      pc.closed = true) ∧
    (leaveCall hasSocket channelId cl).1.localStream = none ∧
    (∀ tracks, cl.localStream = some tracks →
      ∀ t ∈ tracks, Action.stopTrack t ∈ (leaveCall hasSocket channelId cl).2) ∧
    (leaveCall hasSocket channelId cl).1.inCall = false ∧
    (leaveCall hasSocket channelId cl).1.connectedUsers = [] ∧
    (leaveCall hasSocket channelId cl).1.isMuted = false ∧
    (hasSocket = true →
      emitted (leaveCall hasSocket channelId cl).2 = [ClientEvent.leave_voice channelId]) ∧
    (hasSocket = false → emitted (leaveCall hasSocket channelId cl).2 = []) := by
  have hem : ∀ (ts : List Nat) (rest : List Action),
      emitted (ts.map Action.stopTrack ++ rest) = emitted rest := by
    intro ts rest
    induction ts with
    | nil => rfl
    | cons t ts ih => simpa [emitted] using ih
  refine ⟨rfl, ?_, ?_, rfl, ?_, rfl, rfl, rfl, ?_, ?_⟩
  · exact length_foldl_closeAt _ _
  · intro e he pc hpc
    exact closed_foldl_closeAt cl.peers cl.pcs e.2 (Or.inl ⟨e, he, rfl⟩) pc hpc
  · intro tracks hs t ht
    simp only [leaveCall, hs]
    exact List.mem_append_left _ (List.mem_map.2 ⟨t, ht, rfl⟩)
  · intro h
    subst h
    unfold leaveCall
    cases cl.localStream with
    | none => rfl
    | some tracks => exact hem tracks _
  · intro h
    subst h
    unfold leaveCall
    cases cl.localStream with
    | none => rfl
    | some tracks => exact hem tracks _

/-- C17. For a component whose `socket` prop is set, from every state, whatever the state
of each peer connection, `leaveCall` closes every peer connection the table points to and
empties the table, stops every track of the local stream and sets the stream reference to
`null`, emits `leave_voice` for the current channel (and no other event), and resets
`inCall`, `connectedUsers` and `isMuted`. -/
theorem leaveCall_tears_down (hasSocket : Bool) (channelId : String) (cl : Client)
    (hsocket : hasSocket = true) :
    (leaveCall hasSocket channelId cl).1.peers = [] ∧
    (leaveCall hasSocket channelId cl).1.pcs.length = cl.pcs.length ∧
    (∀ e ∈ cl.peers, ∀ pc, (leaveCall hasSocket channelId cl).1.pcs.get? e.2 = some pc →
      pc.closed = true) ∧
    (leaveCall hasSocket channelId cl).1.localStream = none ∧
    (∀ tracks, cl.localStream = some tracks →
      ∀ t ∈ tracks, Action.stopTrack t ∈ (leaveCall hasSocket channelId cl).2) ∧
    ClientEvent.leave_voice channelId ∈ emitted (leaveCall hasSocket channelId cl).2 ∧
    emitted (leaveCall hasSocket channelId cl).2 = [ClientEvent.leave_voice channelId] ∧
    (leaveCall hasSocket channelId cl).1.inCall = false ∧
    (leaveCall hasSocket channelId cl).1.connectedUsers = [] ∧
    (leaveCall hasSocket channelId cl).1.isMuted = false := by
  have h := leaveCall_spec hasSocket channelId cl
  have hem := h.2.2.2.2.2.2.2.2.1 hsocket
  refine ⟨h.1, h.2.1, h.2.2.1, h.2.2.2.1, h.2.2.2.2.1, ?_, hem, h.2.2.2.2.2.1,
    h.2.2.2.2.2.2.1, h.2.2.2.2.2.2.2.1⟩
  rw [hem]
  exact List.mem_singleton.2 rfl

/-- C17, at a concrete input: `exClient`, whose socket is set, leaves the call: its peer
connection is closed, both tracks are stopped and `leave_voice` is emitted. -/
theorem leaveCall_tears_down_witness :
    (leaveCall true "7" exClient).1.pcs.map PeerConnection.closed = [true] ∧
    (leaveCall true "7" exClient).2 =
      [Action.stopTrack 0, Action.stopTrack 1,
        Action.emit (ClientEvent.leave_voice "7")] ∧
    emitted (leaveCall true "7" exClient).2 = [ClientEvent.leave_voice "7"] :=
  ⟨by decide, by decide, (leaveCall_tears_down true "7" exClient rfl).2.2.2.2.2.2.1⟩

/-! ## The client: participant left -/

/-- C18. Handling `user_left_voice` for `socketId` emits nothing and leaves the local
stream, `inCall` and `isMuted` as they are. It removes from `connectedUsers` exactly the
entries with that `socketId`. If the table has a peer connection under `socketId`, that
object is closed and the key removed, and every other object and every other key is as
before; if it has none, the table and the objects are unchanged. -/
theorem handleUserLeft_frame (cl : Client) (userId : Nat) (socketId : String) :
    (handleUserLeft cl userId socketId).2 = [] ∧
    (handleUserLeft cl userId socketId).1.localStream = cl.localStream ∧
    (handleUserLeft cl userId socketId).1.inCall = cl.inCall ∧
    (handleUserLeft cl userId socketId).1.isMuted = cl.isMuted ∧
    (∀ u, u ∈ (handleUserLeft cl userId socketId).1.connectedUsers ↔
      u ∈ cl.connectedUsers ∧ u.socketId ≠ socketId) ∧
    (handleUserLeft cl userId socketId).1.connectedUsers =
      cl.connectedUsers.filter (fun u => u.socketId ≠ socketId) ∧
    peersGet (handleUserLeft cl userId socketId).1.peers socketId = none ∧
    (∀ k, k ≠ socketId →
      peersGet (handleUserLeft cl userId socketId).1.peers k = peersGet cl.peers k) ∧
    (∀ i, peersGet cl.peers socketId = some i →
      (∀ pc, cl.pcs.get? i = some pc →
        (handleUserLeft cl userId socketId).1.pcs.get? i = some { pc with closed := true }) ∧
      (∀ j, j ≠ i → (handleUserLeft cl userId socketId).1.pcs.get? j = cl.pcs.get? j)) ∧
    (peersGet cl.peers socketId = none →
      (handleUserLeft cl userId socketId).1.peers = cl.peers ∧
      (handleUserLeft cl userId socketId).1.pcs = cl.pcs) := by
  unfold handleUserLeft
  cases hget : peersGet cl.peers socketId with
  | none =>
    refine ⟨rfl, rfl, rfl, rfl, ?_, rfl, hget, fun _ _ => rfl, ?_, fun _ => ⟨rfl, rfl⟩⟩
    · intro u
      simp [List.mem_filter]
    · intro i h; cases h
  | some i =>
    refine ⟨rfl, rfl, rfl, rfl, ?_, rfl, peersGet_peersDelete_self _ _,
      fun k hk => peersGet_peersDelete_ne _ _ _ hk, ?_, ?_⟩
    · intro u
      simp [List.mem_filter]
    · intro i' h
      cases h
      refine ⟨?_, ?_⟩
      · intro pc hpc
        simp only [closeAt, get?_updateAt, if_pos, hpc, Option.map_some']
      · intro j hj
        simp only [closeAt, get?_updateAt, if_neg hj]
    · intro h; cases h

/-! ## The voice mesh -/

/-- When `x`, `y` and `z` each join voice channel `v` once, the run comes to an end and
every pair is negotiated by exactly one offer, from the earlier to the later joiner; each
component then holds one open peer connection per other participant. -/
theorem mesh_three_participants :
    (System.run exStore 0 okRtc 10 exSystem
        [("x", UserAction.joinCall (some [0]) "v"), ("y", UserAction.joinCall (some [1]) "v"),
          ("z", UserAction.joinCall (some [2]) "v")]).map
      (fun s => (offers s.delivered,
        [openLinks s.clients "x" "y", openLinks s.clients "x" "z",
          openLinks s.clients "y" "x", openLinks s.clients "y" "z",
          openLinks s.clients "z" "x", openLinks s.clients "z" "y"])) =
      some ([("x", "y"), ("x", "z"), ("y", "z")], [1, 1, 1, 1, 1, 1]) := by
  decide

/-- C14, the code at the failing input. `x` joins voice channel `v`, `y` joins, and `x`
joins again (a second `join_voice` from the same connection). The pair is then negotiated
by two offers, one in each direction, and each of the two components holds two open peer
connections for the other. -/
theorem rejoin_duplicates_offer :
    (System.run exStore 0 okRtc 10 exSystem
        [("x", UserAction.joinCall (some [0]) "v"), ("y", UserAction.joinCall (some [1]) "v"),
          ("x", UserAction.joinCall (some [0]) "v")]).map
      (fun s => (offers s.delivered, offersBetween s.delivered "x" "y",
        openLinks s.clients "x" "y", openLinks s.clients "y" "x")) =
      some ([("x", "y"), ("y", "x")], 2, 2, 2) := by
  decide

/-! ## Leaked peer connections -/

theorem peersGet_peersSet_ne (m : List (String × Nat)) (k : String) (v : Nat) (j : String)
    (h : j ≠ k) : peersGet (peersSet m k v) j = peersGet m j := by
  induction m with
  | nil => simp [peersSet, peersGet, Ne.symm h]
  | cons e rest ih =>
    obtain ⟨k', v'⟩ := e
    unfold peersSet
    split
    · rename_i heq
      subst heq
      simp [peersGet, List.find?_cons, Ne.symm h]
    · by_cases hj : k' = j
      · simp [peersGet, List.find?_cons, hj]
      · simp only [peersGet, List.find?_cons, hj, decide_False] at ih ⊢
        exact ih

theorem mem_of_peersGet {m : List (String × Nat)} {k : String} {v : Nat}
    (h : peersGet m k = some v) : (k, v) ∈ m := by
  simp only [peersGet, Option.map_eq_some'] at h
  obtain ⟨⟨k', v'⟩, hf, hv⟩ := h
  have hp := List.find?_some hf
  have hm := List.mem_of_find?_eq_some hf
  simp only [decide_eq_true_eq] at hp
  simp only at hv
  subst hp
  subst hv
  exact hm

theorem get?_append_singleton {pcs : List PeerConnection} {pc q : PeerConnection} {i : Nat}
    (h : (pcs ++ [pc]).get? i = some q) :
    pcs.get? i = some q ∨ (i = pcs.length ∧ q = pc) := by
  induction pcs generalizing i with
  | nil =>
    cases i with
    | zero =>
      right
      simp at h
      exact ⟨rfl, h.symm⟩
    | succ i => simp at h
  | cons a rest ih =>
    cases i with
    | zero => left; simpa using h
    | succ i =>
      have h' : (rest ++ [pc]).get? i = some q := by simpa using h
      rcases ih h' with h1 | ⟨h1, h2⟩
      · left; simpa using h1
      · right; exact ⟨by simp [h1], h2⟩

theorem noLeak_storePeer {cl : Client} {socketId : String} {pc : PeerConnection}
    (hpc : pc.socketId = socketId) (h : NoLeak cl)
    (hnone : peersGet cl.peers socketId = none) : NoLeak (storePeer cl socketId pc) := by
  intro i q hq
  simp only [storePeer] at hq ⊢
  rcases get?_append_singleton hq with hq | ⟨rfl, rfl⟩
  · rcases h i q hq with hc | ht
    · exact Or.inl hc
    · right
      have hne : q.socketId ≠ socketId := by
        intro heq
        rw [heq, hnone] at ht
        cases ht
      rw [peersGet_peersSet_ne _ _ _ _ hne]
      exact ht
  · right
    rw [hpc]
    exact peersGet_peersSet_self _ _ _

theorem noLeak_handleUserLeft {cl : Client} (h : NoLeak cl) (userId : Nat)
    (socketId : String) : NoLeak (handleUserLeft cl userId socketId).1 := by
  unfold handleUserLeft
  cases hget : peersGet cl.peers socketId with
  | none => exact h
  | some j =>
    intro i q hq
    simp only [closeAt, get?_updateAt] at hq
    by_cases hij : i = j
    · rw [if_pos hij] at hq
      obtain ⟨q0, _, rfl⟩ := Option.map_eq_some'.1 hq
      exact Or.inl rfl
    · rw [if_neg hij] at hq
      rcases h i q hq with hc | ht
      · exact Or.inl hc
      · right
        have hne : q.socketId ≠ socketId := by
          intro heq
          rw [heq, hget] at ht
          exact hij (Option.some.inj ht).symm
        simp only
        rw [peersGet_peersDelete_ne _ _ _ hne]
        exact ht

theorem noLeak_leaveCall {cl : Client} (h : NoLeak cl) (hasSocket : Bool)
    (channelId : String) : NoLeak (leaveCall hasSocket channelId cl).1 := by
  intro i q hq
  left
  simp only [leaveCall] at hq
  refine closed_foldl_closeAt cl.peers cl.pcs i ?_ q hq
  cases h0 : cl.pcs.get? i with
  | none =>
    right
    intro pc hpc
    cases hpc
  | some q0 =>
    rcases h i q0 h0 with hc | ht
    · right
      intro pc hpc
      cases hpc
      exact hc
    · exact Or.inl ⟨_, mem_of_peersGet ht, rfl⟩

/-- What the handlers do get right: a step that creates no peer connection for a remote id
already in the table keeps every constructed peer connection closed or tracked. -/
theorem noLeak_step (rtc : Rtc) (hasSocket : Bool) (channelId : String) (cl : Client)
    (step : ClientStep) (h : NoLeak cl) (hfresh : freshStep cl step) :
    NoLeak (clientStep rtc hasSocket channelId cl step) := by
  cases step with
  | user_joined_voice userId socketId =>
    simp only [freshStep] at hfresh
    simp only [clientStep, handleUserJoined]
    cases hs : cl.localStream with
    | none => exact h
    | some tracks =>
      simp only
      split
      · exact noLeak_storePeer rfl h hfresh
      · split
        · exact noLeak_storePeer rfl h hfresh
        · exact noLeak_storePeer rfl h hfresh
  | webrtc_offer offer fromSocketId =>
    simp only [freshStep] at hfresh
    simp only [clientStep, handleOffer]
    cases hs : cl.localStream with
    | none => exact h
    | some tracks =>
      simp only
      split
      · split
        · exact noLeak_storePeer rfl h hfresh
        · split
          · exact noLeak_storePeer rfl h hfresh
          · exact noLeak_storePeer rfl h hfresh
      · exact noLeak_storePeer rfl h hfresh
  | user_left_voice userId socketId => exact noLeak_handleUserLeft h userId socketId
  | leaveCall => exact noLeak_leaveCall h hasSocket channelId

/-- C21, the code at the failing input. A component in a call learns twice that user 2
joined on connection `b`: the first peer connection, at position 0, is then open and no
longer in the table. The same happens when the second event is a `webrtc_offer` from `b`,
and a later `leaveCall` does not close that connection either. -/
theorem second_join_leaks_peer :
    leaked (clientRun okRtc true "v" inCallClient
      [ClientStep.user_joined_voice 2 "b"]) = [] ∧
    leaked (clientRun okRtc true "v" inCallClient
      [ClientStep.user_joined_voice 2 "b", ClientStep.user_joined_voice 2 "b"]) = [0] ∧
    leaked (clientRun okRtc true "v" inCallClient
      [ClientStep.user_joined_voice 2 "b", ClientStep.webrtc_offer "sdp" "b"]) = [0] ∧
    leaked (clientRun okRtc true "v" inCallClient
      [ClientStep.user_joined_voice 2 "b", ClientStep.user_joined_voice 2 "b",
        ClientStep.leaveCall]) = [0] := by
  decide

/-! ## Departure notifications -/

theorem setDelete_of_not_mem {xs : List String} {x : String} (h : x ∉ xs) :
    setDelete xs x = xs := by
  unfold setDelete
  rw [List.filter_eq_self]
  intro y hy
  have : y ≠ x := fun heq => h (heq ▸ hy)
  simpa using this

/-- C22, as stated, fails: `c` is not in voice room 7, yet its `leave_voice` for channel 7
sends `user_left_voice` for `c` to both members of the room; and after `a` has left the
room, a second `leave_voice` from `a` notifies `b` again. -/
theorem leave_voice_from_non_member :
    "c" ∉ exServer.rooms (voiceRoom "7") ∧
    emits (leave_voice exServer ⟨"c", 3⟩ "7").2 =
      [("a", Event.user_left_voice 3 "c"), ("b", Event.user_left_voice 3 "c")] ∧
    "a" ∉ (leave_voice exServer ⟨"a", 1⟩ "7").1.rooms (voiceRoom "7") ∧
    emits (leave_voice (leave_voice exServer ⟨"a", 1⟩ "7").1 ⟨"a", 1⟩ "7").2 =
      [("b", Event.user_left_voice 1 "a")] := by
  decide

/-- C22, amended. In a well-formed state, `leave_voice` for a channel from a live
connection `socket` sends `user_left_voice` for that connection to exactly the members of
the voice room other than `socket`, whether or not `socket` is a member: every recipient
is a member of the room, and when `socket` is not a member every member is a recipient
and no room changes. Nothing is emitted exactly when the room has no member other than
`socket`. -/
theorem leave_voice_ignores_membership (st : Server) (socket : Socket) (channelId : String)
    (hwf : st.WF) (hlive : socket ∈ st.sockets) :
    (∀ T, (T, Event.user_left_voice socket.userId socket.id) ∈
          emits (leave_voice st socket channelId).2 ↔
        T ∈ st.rooms (voiceRoom channelId) ∧ T ≠ socket.id) ∧
    (∀ p ∈ emits (leave_voice st socket channelId).2,
      p.2 = Event.user_left_voice socket.userId socket.id ∧
        p.1 ∈ st.rooms (voiceRoom channelId)) ∧
    (socket.id ∉ st.rooms (voiceRoom channelId) →
      (∀ T, (T, Event.user_left_voice socket.userId socket.id) ∈
            emits (leave_voice st socket channelId).2 ↔
          T ∈ st.rooms (voiceRoom channelId)) ∧
      (∀ r, (leave_voice st socket channelId).1.rooms r = st.rooms r)) ∧
    (emits (leave_voice st socket channelId).2 = [] ↔
      ∀ T ∈ st.rooms (voiceRoom channelId), T = socket.id) := by
  have hown : st.rooms socket.id = [socket.id] := hwf.own_room socket hlive
  have heff : (leave_voice st socket channelId).2 =
      st.socketTo socket (voiceRoom channelId)
        (Event.user_left_voice socket.userId socket.id) := rfl
  have hiff : ∀ T, (T, Event.user_left_voice socket.userId socket.id) ∈
        emits (leave_voice st socket channelId).2 ↔
      T ∈ st.rooms (voiceRoom channelId) ∧ T ≠ socket.id := by
    intro T
    rw [heff, mem_emits_socketTo, hown]
    constructor
    · rintro ⟨_, hmem, hne, _⟩
      exact ⟨hmem, by simpa using hne⟩
    · rintro ⟨hmem, hne⟩
      exact ⟨rfl, hmem, by simpa using hne, hwf.rooms_live _ _ hmem⟩
  have hall : ∀ p ∈ emits (leave_voice st socket channelId).2,
      p.2 = Event.user_left_voice socket.userId socket.id ∧
        p.1 ∈ st.rooms (voiceRoom channelId) := by
    rintro ⟨T, ev⟩ hp
    have h := (mem_emits_socketTo st socket _ _ T ev).1 (heff ▸ hp)
    exact ⟨h.1, h.2.1⟩
  refine ⟨hiff, hall, ?_, ?_⟩
  · intro hnot
    refine ⟨?_, ?_⟩
    · intro T
      rw [hiff]
      constructor
      · exact fun h => h.1
      · exact fun h => ⟨h, fun heq => hnot (heq ▸ h)⟩
    · intro r
      simp only [leave_voice, Server.leave]
      split
      · rename_i hr
        subst hr
        exact setDelete_of_not_mem hnot
      · rfl
  · constructor
    · intro hnil T hT
      by_contra hne
      have := (hiff T).2 ⟨hT, hne⟩
      rw [hnil] at this
      cases this
    · intro hno
      cases hem : emits (leave_voice st socket channelId).2 with
      | nil => rfl
      | cons p rest =>
        exfalso
        have hp : p ∈ emits (leave_voice st socket channelId).2 := by
          rw [hem]
          exact List.mem_cons_self _ _
        obtain ⟨T, ev⟩ := p
        have h2 := hall _ hp
        simp only at h2
        obtain ⟨rfl, hmem⟩ := h2
        exact ((hiff T).1 hp).2 (hno T hmem)

/-- C22, amended, at a concrete input: `c`, which is not in voice room 7 of `exServer`,
sends `leave_voice` for channel 7; the members `a` and `b` are the recipients. -/
theorem leave_voice_ignores_membership_witness :
    exServer.WF ∧ (⟨"c", 3⟩ : Socket) ∈ exServer.sockets ∧
    "c" ∉ exServer.rooms (voiceRoom "7") ∧
    (∀ T, (T, Event.user_left_voice 3 "c") ∈ emits (leave_voice exServer ⟨"c", 3⟩ "7").2 ↔
        T ∈ exServer.rooms (voiceRoom "7")) :=
  ⟨exServer_WF, by decide, by decide,
    ((leave_voice_ignores_membership exServer ⟨"c", 3⟩ "7" exServer_WF (by decide)).2.2.1
      (by decide)).1⟩

end ChatApp
